import Mathlib

/-!
Verification development for the formatted-output engine (printf family) and
the binary64-to-shortest-decimal conversion core of the BareMetal yalibc.

The C sources are shallowly embedded: machine integers become `Nat`/`Int`
with explicit `% 2^w` where wraparound matters, buffers become `List Char`
or `Nat → Char`, the variadic argument stream becomes a `List Arg`, and the
character sink (`struct output_info`) is threaded explicitly.
-/

namespace Yalc

/-! ## Error codes (yalibc `errno.h`) -/

def EINVAL : Int := 22
def ENOTSUP : Int := 95

/-! ## Flag constants (`enum format_flags` etc. in the printf source) -/

def FFLAG_ALT : Nat := 0x01
def FFLAG_ZERO_PAD : Nat := 0x02
def FFLAG_LEFT_ADJ : Nat := 0x04
def FFLAG_NOPSIGN : Nat := 0x08
def FFLAG_ADDSIGN : Nat := 0x10
def FFLAG_MASK : Nat := 0x1F

def LFLAG_HALF : Nat := 0x020
def LFLAG_HALF_HALF : Nat := 0x040
def LFLAG_LONG : Nat := 0x080
def LFLAG_LONG_LONG : Nat := 0x100
def LFLAG_INTMAX : Nat := 0x200
def LFLAG_SIZET : Nat := 0x400
def LFLAG_PTRDIFF : Nat := 0x800
def LFLAG_MASK : Nat := 0xFE0

def TFLAG_INT : Nat := 0x01000
def TFLAG_DOUBLE : Nat := 0x02000
def TFLAG_CHAR : Nat := 0x04000
def TFLAG_STRING : Nat := 0x08000
def TFLAG_PTR : Nat := 0x10000
def TFLAG_CTR : Nat := 0x20000
def TFLAG_MASK : Nat := 0x3F000

def SFLAG_HAS_WIDTH : Nat := 0x0040000
def SFLAG_HAS_PREC : Nat := 0x0080000
def SFLAG_UPPERCASE : Nat := 0x0100000
def SFLAG_IS_SIGNED : Nat := 0x0200000
def SFLAG_IS_FFORM : Nat := 0x0400000
def SFLAG_IS_EFORM : Nat := 0x0800000
def SFLAG_IS_GFORM : Nat := 0x0C00000
def SFLAG_IS_AFORM : Nat := 0x1000000
def SFLAG_IS_FAST : Nat := 0x2000000
def SFLAG_MASK : Nat := 0x3FC0000

def TRFLAG_REVERSE_PREFIX : Nat := 0x04000000
def TRFLAG_REVERSE_NUM : Nat := 0x08000000
def TRFLAG_REVERSE_SUFFIX : Nat := 0x10000000
def TRFLAG_MASK : Nat := 0x1C000000

/-- `INT_MAX` on the 32-bit-int LP64 target. -/
def INT_MAX : Int := 2147483647

/-! ## Data model (`struct format_info`, `struct field_data`, `struct output_info`) -/

/-- `struct format_info`.  `radix` keeps the `enum radix` value (2/8/10/16). -/
structure FormatInfo where
  flags : Nat
  width : Int
  precision : Int
  int_bitlen : Int
  num_pad : Int
  suffix_pad : Int
  radix : Nat
  deriving DecidableEq, Repr

/-- `yalc_clear_fi`: the cleared descriptor. -/
def yalc_clear_fi : FormatInfo :=
  { flags := 0, width := 0, precision := 0, int_bitlen := 0,
    num_pad := 0, suffix_pad := 0, radix := 10 }

/-- One member of the variadic argument stream.  Integer arguments of every
width are carried as the mathematical value (sign/zero extension happens at
the consumption site, as in the C); doubles are carried as their binary64 bit
pattern; a string argument may be a null pointer. -/
inductive Arg where
  | int (v : Int)
  | dbl (bits : Nat)
  | ldbl
  | str (s : Option (List Char))
  deriving DecidableEq, Repr

/-- `va_arg(*va, int)`: pop one argument, read it as an `int`.
A type-mismatched read is undefined behaviour in C; the model returns 0. -/
def takeIntArg : List Arg → Int × List Arg
  | Arg.int v :: rest => (v, rest)
  | _ :: rest => (0, rest)
  | [] => (0, [])

/-! ## Conversion-specifier parser (`yalc_pf_parse_format`)

The C loop `for (i = 1; i < fmt_len; i++)` is translated as structural
recursion over the characters after the leading `%`, carrying the loop
index `i`, the descriptor, and the three local `bool`s
(`width_from_arg`, `prec_from_arg`, `has_bitlen`). -/

/-- Code after the `for` loop: the duplicate-type check (`type & (type-1)`,
computed on `uint32_t` in C; for `type = 0` both the C wrap-around and the
truncated `Nat` subtraction give 0), the half/long exclusion check, and the
zero-pad fixups.  `0xFFFFFFFD` is the 32-bit `~FFLAG_ZERO_PAD`. -/
def yalc_pf_parse_post (i : Nat) (fi : FormatInfo) (va : List Arg) :
    Except Int (Nat × FormatInfo × List Arg) :=
  let type := fi.flags &&& TFLAG_MASK
  if type &&& (type - 1) ≠ 0 then .error (-EINVAL)
  else if fi.flags &&& LFLAG_HALF ≠ 0 ∧ fi.flags &&& LFLAG_LONG ≠ 0 then .error (-EINVAL)
  else
    let fi := if fi.flags &&& TFLAG_INT ≠ 0 ∧ fi.flags &&& FFLAG_ZERO_PAD ≠ 0 ∧
                 fi.flags &&& SFLAG_HAS_PREC ≠ 0
              then { fi with flags := fi.flags &&& 0xFFFFFFFD } else fi
    let fi := if fi.flags &&& FFLAG_ZERO_PAD ≠ 0 ∧ fi.flags &&& FFLAG_LEFT_ADJ ≠ 0
              then { fi with flags := fi.flags &&& 0xFFFFFFFD } else fi
    .ok (i, fi, va)

/-- The `break` after a conversion letter: "If we are here we should have a
type, verify just in case", then fall through to the post-loop checks. -/
def yalc_pf_finish_type (i : Nat) (fi : FormatInfo) (va : List Arg) :
    Except Int (Nat × FormatInfo × List Arg) :=
  if fi.flags &&& TFLAG_MASK = 0 then .error (-EINVAL)
  else yalc_pf_parse_post i fi va

/-- The parser loop body.  Arguments: remaining characters (those at indices
`i, i+1, …` of the directive), current index `i`, descriptor, the three
local flags, argument stream. -/
def yalc_pf_parse_go : List Char → Nat → FormatInfo → Bool → Bool → Bool → List Arg →
    Except Int (Nat × FormatInfo × List Arg)
  | [], i, fi, _, _, _, va => yalc_pf_parse_post i fi va
  | 'w' :: 'f' :: rest2, i, fi, wfa, pfa, hb, va =>
    if hb ∨ fi.flags &&& LFLAG_MASK ≠ 0 then .error (-EINVAL)
    else yalc_pf_parse_go rest2 (i+2) { fi with flags := fi.flags ||| SFLAG_IS_FAST } wfa pfa true va
  | 'w' :: rest, i, fi, wfa, pfa, hb, va =>
    if hb ∨ fi.flags &&& LFLAG_MASK ≠ 0 then .error (-EINVAL)
    else yalc_pf_parse_go rest (i+1) fi wfa pfa true va
  | c :: rest, i, fi, wfa, pfa, hb, va =>
    if c = '#' then
      yalc_pf_parse_go rest (i+1) { fi with flags := fi.flags ||| FFLAG_ALT } wfa pfa hb va
    else if c = '0' then
      if fi.flags &&& SFLAG_HAS_PREC ≠ 0 ∧ pfa = false then
        yalc_pf_parse_go rest (i+1) { fi with precision := fi.precision * 10 } wfa pfa hb va
      else if fi.flags &&& SFLAG_HAS_WIDTH ≠ 0 ∧ wfa = false then
        yalc_pf_parse_go rest (i+1) { fi with width := fi.width * 10 } wfa pfa hb va
      else if fi.flags &&& FFLAG_ZERO_PAD = 0 then
        yalc_pf_parse_go rest (i+1) { fi with flags := fi.flags ||| FFLAG_ZERO_PAD } wfa pfa hb va
      else .error (-EINVAL)
    else if c = '-' then
      yalc_pf_parse_go rest (i+1) { fi with flags := fi.flags ||| FFLAG_LEFT_ADJ } wfa pfa hb va
    else if c = ' ' then
      yalc_pf_parse_go rest (i+1) { fi with flags := fi.flags ||| FFLAG_NOPSIGN } wfa pfa hb va
    else if c = '+' then
      yalc_pf_parse_go rest (i+1) { fi with flags := fi.flags ||| FFLAG_ADDSIGN } wfa pfa hb va
    else if c = '\'' then
      yalc_pf_parse_go rest (i+1) fi wfa pfa hb va
    else if '1' ≤ c ∧ c ≤ '9' then
      let d : Int := (c.toNat - '0'.toNat : Nat)
      if hb then
        let nb := fi.int_bitlen * 10 + d
        if nb > 64 then .error (-EINVAL)
        else yalc_pf_parse_go rest (i+1) { fi with int_bitlen := nb } wfa pfa hb va
      else if fi.flags &&& SFLAG_HAS_PREC = 0 then
        if wfa ∨ pfa then .error (-EINVAL)
        else
          let fi := { fi with flags := fi.flags ||| SFLAG_HAS_WIDTH }
          if fi.width > INT_MAX / 10 then .error (-EINVAL)
          else yalc_pf_parse_go rest (i+1) { fi with width := fi.width * 10 + d } wfa pfa hb va
      else if pfa then .error (-EINVAL)
      else if fi.precision > INT_MAX / 10 then .error (-EINVAL)
      else yalc_pf_parse_go rest (i+1) { fi with precision := fi.precision * 10 + d } wfa pfa hb va
    else if c = '.' then
      if fi.flags &&& SFLAG_HAS_PREC = 0 then
        yalc_pf_parse_go rest (i+1) { fi with flags := fi.flags ||| SFLAG_HAS_PREC } wfa pfa hb va
      else .error (-EINVAL)
    else if c = '*' then
      if wfa ∧ pfa then .error (-EINVAL)
      else if fi.flags &&& SFLAG_HAS_PREC = 0 then
        let wv := takeIntArg va
        if wv.1 < 0 then
          yalc_pf_parse_go rest (i+1)
            { fi with flags := fi.flags ||| SFLAG_HAS_WIDTH ||| FFLAG_LEFT_ADJ, width := -wv.1 }
            true pfa hb wv.2
        else
          yalc_pf_parse_go rest (i+1)
            { fi with flags := fi.flags ||| SFLAG_HAS_WIDTH, width := wv.1 } true pfa hb wv.2
      else
        let pv := takeIntArg va
        if pv.1 < 0 then
          yalc_pf_parse_go rest (i+1) { fi with flags := fi.flags &&& 0xFFF7FFFF } wfa pfa hb pv.2
        else
          yalc_pf_parse_go rest (i+1)
            { fi with flags := fi.flags ||| SFLAG_HAS_PREC, precision := pv.1 } wfa true hb pv.2
    else if c = '$' then .error (-ENOTSUP)
    else if c = 'h' then
      if fi.flags &&& LFLAG_HALF ≠ 0 then
        yalc_pf_parse_go rest (i+1) { fi with flags := fi.flags ||| LFLAG_HALF_HALF } wfa pfa hb va
      else if fi.flags &&& LFLAG_HALF_HALF ≠ 0 then .error (-EINVAL)
      else yalc_pf_parse_go rest (i+1) { fi with flags := fi.flags ||| LFLAG_HALF } wfa pfa hb va
    else if c = 'l' then
      if fi.flags &&& LFLAG_LONG ≠ 0 then
        yalc_pf_parse_go rest (i+1) { fi with flags := fi.flags ||| LFLAG_LONG_LONG } wfa pfa hb va
      else if fi.flags &&& LFLAG_LONG_LONG ≠ 0 then .error (-EINVAL)
      else yalc_pf_parse_go rest (i+1) { fi with flags := fi.flags ||| LFLAG_LONG } wfa pfa hb va
    else if c = 'L' then
      if fi.flags &&& LFLAG_MASK ≠ 0 then .error (-EINVAL)
      else yalc_pf_parse_go rest (i+1) { fi with flags := fi.flags ||| LFLAG_LONG } wfa pfa hb va
    else if c = 'j' then
      if fi.flags &&& LFLAG_MASK ≠ 0 then .error (-EINVAL)
      else yalc_pf_parse_go rest (i+1) { fi with flags := fi.flags ||| LFLAG_INTMAX } wfa pfa hb va
    else if c = 'z' then
      if fi.flags &&& LFLAG_MASK ≠ 0 then .error (-EINVAL)
      else yalc_pf_parse_go rest (i+1) { fi with flags := fi.flags ||| LFLAG_SIZET } wfa pfa hb va
    else if c = 't' then
      if fi.flags &&& LFLAG_MASK ≠ 0 then .error (-EINVAL)
      else yalc_pf_parse_go rest (i+1) { fi with flags := fi.flags ||| LFLAG_PTRDIFF } wfa pfa hb va
    else if c = 'c' then
      if fi.flags &&& LFLAG_LONG ≠ 0 then .error (-ENOTSUP)
      else yalc_pf_finish_type i { fi with flags := fi.flags ||| TFLAG_CHAR } va
    else if c = 's' then
      if fi.flags &&& LFLAG_LONG ≠ 0 then .error (-ENOTSUP)
      else yalc_pf_finish_type i { fi with flags := fi.flags ||| TFLAG_STRING } va
    else if c = 'i' ∨ c = 'd' then
      yalc_pf_finish_type i { fi with flags := fi.flags ||| SFLAG_IS_SIGNED ||| TFLAG_INT } va
    else if c = 'u' then
      yalc_pf_finish_type i { fi with flags := fi.flags ||| TFLAG_INT } va
    else if c = 'X' then
      yalc_pf_finish_type i
        { fi with flags := fi.flags ||| SFLAG_UPPERCASE ||| TFLAG_INT, radix := 16 } va
    else if c = 'x' then
      yalc_pf_finish_type i { fi with flags := fi.flags ||| TFLAG_INT, radix := 16 } va
    else if c = 'B' then
      yalc_pf_finish_type i
        { fi with flags := fi.flags ||| SFLAG_UPPERCASE ||| TFLAG_INT, radix := 2 } va
    else if c = 'b' then
      yalc_pf_finish_type i { fi with flags := fi.flags ||| TFLAG_INT, radix := 2 } va
    else if c = 'p' then
      yalc_pf_finish_type i
        { fi with flags := fi.flags ||| FFLAG_ALT ||| LFLAG_LONG ||| TFLAG_INT, radix := 16 } va
    else if c = 'o' then
      yalc_pf_finish_type i { fi with flags := fi.flags ||| TFLAG_INT, radix := 8 } va
    else if c = 'E' then
      yalc_pf_finish_type i
        { fi with flags := fi.flags ||| SFLAG_UPPERCASE ||| SFLAG_IS_EFORM ||| TFLAG_DOUBLE } va
    else if c = 'e' then
      yalc_pf_finish_type i { fi with flags := fi.flags ||| SFLAG_IS_EFORM ||| TFLAG_DOUBLE } va
    else if c = 'F' then
      yalc_pf_finish_type i { fi with flags := fi.flags ||| SFLAG_UPPERCASE ||| TFLAG_DOUBLE } va
    else if c = 'f' then
      yalc_pf_finish_type i { fi with flags := fi.flags ||| TFLAG_DOUBLE } va
    else if c = 'G' then
      yalc_pf_finish_type i
        { fi with flags := fi.flags ||| SFLAG_UPPERCASE ||| SFLAG_IS_GFORM ||| TFLAG_DOUBLE } va
    else if c = 'g' then
      yalc_pf_finish_type i { fi with flags := fi.flags ||| SFLAG_IS_GFORM ||| TFLAG_DOUBLE } va
    else if c = 'A' then
      yalc_pf_finish_type i
        { fi with flags := fi.flags ||| SFLAG_UPPERCASE ||| SFLAG_IS_AFORM ||| TFLAG_DOUBLE,
                  radix := 16 } va
    else if c = 'a' then
      yalc_pf_finish_type i
        { fi with flags := fi.flags ||| SFLAG_IS_AFORM ||| TFLAG_DOUBLE, radix := 16 } va
    else if c = 'n' ∨ c = 'm' then .error (-ENOTSUP)
    else yalc_pf_parse_go rest (i+1) fi wfa pfa hb va

/-- `yalc_pf_parse_format`: parse one `%…` directive.  `fmt` is the text
starting at the `%` (running to the end of the format string, as at the call
site in `yalc_xprintf`).  Success returns the index of the last consumed
character together with the filled descriptor and the remaining argument
stream; failure returns the negative status code. -/
def yalc_pf_parse_format (fmt : List Char) (va : List Arg) :
    Except Int (Nat × FormatInfo × List Arg) :=
  yalc_pf_parse_go (fmt.drop 1) 1 yalc_clear_fi false false false va

/-! ## Output sink (`struct output_info`, `yalc_pf_char_out`) -/

/-- The zero byte `'\0'`. -/
def nulChar : Char := Char.ofNat 0

/-- `struct field_data`.  The C buffers plus their lengths are modelled as
the lists of exactly the characters in range; the standalone sign uses the
C sentinel convention (`'\0'` = no sign). -/
structure FieldData where
  inbuff : List Char
  prefixBuf : List Char
  suffixBuf : List Char
  sign_char : Char
  deriving DecidableEq, Repr

/-- `yalc_clear_fld`. -/
def yalc_clear_fld : FieldData :=
  { inbuff := [], prefixBuf := [], suffixBuf := [], sign_char := nulChar }

/-- `struct output_info`: `outbuff = none` is the console (`putchar`) sink;
otherwise the destination buffer is a total map from byte index to content. -/
structure OutputInfo where
  outbuff : Option (Nat → Char)
  outbuff_len : Nat
  chars_out : Nat

/-- Single store into a byte buffer. -/
def bufWrite (f : Nat → Char) (i : Nat) (c : Char) : Nat → Char :=
  fun j => if j = i then c else f j

/-- `yalc_pf_char_out`: process one character.  With a buffer present the
byte is stored only while `chars_out < outbuff_len - 1`; the slot
`outbuff_len - 1` receives the terminating zero byte exactly when
`chars_out` equals it; the running count always advances. -/
def yalc_pf_char_out (c : Char) (out : OutputInfo) : OutputInfo :=
  match out.outbuff with
  | none => { out with chars_out := out.chars_out + 1 }
  | some buf =>
    if out.outbuff_len > 0 then
      if out.chars_out < out.outbuff_len - 1 then
        { out with outbuff := some (bufWrite buf out.chars_out c), chars_out := out.chars_out + 1 }
      else if out.chars_out = out.outbuff_len - 1 then
        { out with outbuff := some (bufWrite buf out.chars_out nulChar),
                   chars_out := out.chars_out + 1 }
      else { out with chars_out := out.chars_out + 1 }
    else { out with chars_out := out.chars_out + 1 }

/-- Push a character sequence through the sink. -/
def yalc_pf_run (cs : List Char) (out : OutputInfo) : OutputInfo :=
  cs.foldl (fun o c => yalc_pf_char_out c o) out

/-- `yalc_pf_chars_out` as a pure emission sequence: forward or reversed. -/
def yalc_pf_chars_list (l : List Char) (reverse : Bool) : List Char :=
  if reverse then l.reverse else l

/-- C conversion of a (possibly negative) `int` value to `size_t` (LP64). -/
def cSizeT (x : Int) : Nat := (x.emod (2 ^ 64)).toNat

/-! ## Field output formatter (`yalc_pf_field_out`)

The C function is a straight-line sequence of `yalc_pf_char_out` /
`yalc_pf_pad` calls; it is embedded as the emitted character sequence
(`yalc_pf_field_chars`) pushed through the sink. -/

/-- The character sequence emitted by `yalc_pf_field_out` for a field. -/
def yalc_pf_field_chars (fld : FieldData) (fi : FormatInfo) : List Char :=
  let prebuf_pad : Nat := if fi.num_pad < 0 then (-fi.num_pad).toNat else 0
  let postbuf_pad : Nat := if 0 < fi.num_pad then fi.num_pad.toNat else 0
  let suffix_padN : Nat := cSizeT fi.suffix_pad
  let field_width : Nat := fld.prefixBuf.length + prebuf_pad + fld.inbuff.length + postbuf_pad +
    fld.suffixBuf.length + suffix_padN + (if fld.sign_char ≠ nulChar then 1 else 0)
  let widthN : Nat := cSizeT fi.width
  let width_pad : Nat := if widthN > field_width then widthN - field_width else 0
  let prefixE := yalc_pf_chars_list fld.prefixBuf (fi.flags &&& TRFLAG_REVERSE_PREFIX ≠ 0)
  let numE := yalc_pf_chars_list fld.inbuff (fi.flags &&& TRFLAG_REVERSE_NUM ≠ 0)
  let suffixE := yalc_pf_chars_list fld.suffixBuf (fi.flags &&& TRFLAG_REVERSE_SUFFIX ≠ 0)
  let pad_flags := (fi.flags >>> 1) &&& 3
  if pad_flags = 0 then
    List.replicate width_pad ' ' ++ prefixE ++ List.replicate prebuf_pad '0' ++ numE ++
      List.replicate postbuf_pad '0' ++ suffixE ++ List.replicate suffix_padN '0'
  else if pad_flags = 1 then
    (if fi.flags &&& TFLAG_DOUBLE ≠ 0 then
      (if fld.sign_char ≠ nulChar then [fld.sign_char] else []) ++
        List.replicate width_pad '0' ++ prefixE
     else prefixE ++ List.replicate width_pad '0') ++
      numE ++ List.replicate postbuf_pad '0' ++ suffixE ++ List.replicate suffix_padN '0'
  else
    prefixE ++ List.replicate prebuf_pad '0' ++ numE ++ List.replicate postbuf_pad '0' ++
      suffixE ++ List.replicate suffix_padN '0' ++ List.replicate width_pad ' '

/-- `yalc_pf_field_out`: emit the field through the sink. -/
def yalc_pf_field_out (fld : FieldData) (fi : FormatInfo) (out : OutputInfo) : OutputInfo :=
  yalc_pf_run (yalc_pf_field_chars fld fi) out

/-! ## Integer renderer (`yalc_itora`, `yalc_putll`) -/

/-- One digit character in the given radix (`'0' + d`, or the hex letters
from `'a'`/`'A'`). -/
def yalc_itora_digit (upper : Bool) (radix : Nat) (d : Nat) : Char :=
  if radix = 16 ∧ 10 ≤ d then
    Char.ofNat ((if upper then 'A'.toNat else 'a'.toNat) + d - 10)
  else Char.ofNat ('0'.toNat + d)

/-- The C `do … while (val)` digit loop, least-significant digit first.
The fuel `val + 1` strictly bounds the iteration count (each step divides
`val` by the radix ≥ 2). -/
def yalc_itora_go (radix : Nat) (upper : Bool) : Nat → Nat → List Char
  | 0, _ => []
  | fuel + 1, val =>
    let c := yalc_itora_digit upper radix (val % radix)
    if val / radix = 0 then [c] else c :: yalc_itora_go radix upper fuel (val / radix)

/-- `yalc_itora`: render `val` in the descriptor's radix, digits reversed
(least significant first), and set `TRFLAG_REVERSE_NUM`.  An out-of-range
radix falls into the C `default` case and produces no digits. -/
def yalc_itora (val : Nat) (fi : FormatInfo) : List Char × FormatInfo :=
  let digits :=
    if fi.radix = 10 ∨ fi.radix = 16 ∨ fi.radix = 8 ∨ fi.radix = 2 then
      yalc_itora_go fi.radix (fi.flags &&& SFLAG_UPPERCASE ≠ 0) (val + 1) val
    else []
  (digits, { fi with flags := fi.flags ||| TRFLAG_REVERSE_NUM })

/-- The sign/prefix computation of `yalc_putll`: the (possibly negated)
magnitude and the prefix characters. -/
def yalc_putll_pfx (val : Nat) (fi0 : FormatInfo) : Nat × List Char :=
  if fi0.radix = 10 then
    if fi0.flags &&& SFLAG_IS_SIGNED ≠ 0 then
      let sval : Int := if val < 2 ^ 63 then (val : Int) else (val : Int) - 2 ^ 64
      if sval < 0 then (((-(sval + 1)) + 1).toNat, ['-'])
      else if fi0.flags &&& FFLAG_ADDSIGN ≠ 0 then (val, ['+'])
      else if fi0.flags &&& FFLAG_NOPSIGN ≠ 0 then (val, [' '])
      else (val, [])
    else (val, [])
  else if fi0.radix = 16 then
    if fi0.flags &&& FFLAG_ALT ≠ 0 ∧ val ≠ 0 then
      (val, ['0', if fi0.flags &&& SFLAG_UPPERCASE ≠ 0 then 'X' else 'x'])
    else (val, [])
  else if fi0.radix = 2 then
    if fi0.flags &&& FFLAG_ALT ≠ 0 ∧ val ≠ 0 then
      (val, ['0', if fi0.flags &&& SFLAG_UPPERCASE ≠ 0 then 'B' else 'b'])
    else (val, [])
  else (val, [])

/-- The alternate-form octal precision bump of `yalc_putll`. -/
def yalc_putll_octalt (digits : List Char) (val : Nat) (fi : FormatInfo) : FormatInfo :=
  if fi.radix = 8 ∧ fi.flags &&& FFLAG_ALT ≠ 0 then
    if digits.getLast? ≠ some '0' ∧ cSizeT fi.precision ≤ digits.length then
      { fi with flags := fi.flags ||| SFLAG_HAS_PREC, precision := (digits.length : Int) + 1 }
    else if fi.precision = 0 ∧ val = 0 then { fi with precision := 1 }
    else fi
  else fi

/-- The precision handling of `yalc_putll`: digit count kept and the
zero-pad amount `num_pad`. -/
def yalc_putll_prec (len : Nat) (val : Nat) (fi : FormatInfo) : Nat × FormatInfo :=
  if fi.flags &&& SFLAG_HAS_PREC ≠ 0 then
    if cSizeT fi.precision > len then
      (len, { fi with num_pad := -((cSizeT fi.precision - len : Nat) : Int) })
    else if fi.precision = 0 ∧ val = 0 then (0, fi)
    else (len, fi)
  else (len, fi)

/-- `yalc_putll` up to (and excluding) the final `yalc_pf_field_out` call:
prefix/sign computation, digit rendering, the alternate-form-octal
precision bump, and precision handling.  `val` is the `uintmax_t`
argument (64-bit value). -/
def yalc_putll_core (val : Nat) (fi0 : FormatInfo) : FieldData × FormatInfo :=
  let vp := yalc_putll_pfx val fi0
  let r := yalc_itora vp.1 fi0
  let digits := r.1
  let fi := yalc_putll_octalt digits vp.1 r.2
  let lfi := yalc_putll_prec digits.length vp.1 fi
  ({ inbuff := digits.take lfi.1, prefixBuf := vp.2, suffixBuf := [], sign_char := nulChar },
   lfi.2)

/-- The characters emitted by `yalc_putll`. -/
def yalc_putll_chars (val : Nat) (fi : FormatInfo) : List Char :=
  let r := yalc_putll_core val fi
  yalc_pf_field_chars r.1 r.2

/-- `yalc_putll`: render an integer conversion through the sink. -/
def yalc_putll (val : Nat) (fi : FormatInfo) (out : OutputInfo) : OutputInfo :=
  yalc_pf_run (yalc_putll_chars val fi) out

/-! ## Decimal conversion core (`ryu.c`)

`uint32_t`/`uint64_t`/`uint128_t` arithmetic is carried on `Nat` with
explicit `% 2^32` / `% 2^64` / `% 2^128` at each place the C narrows or may
wrap; `int32_t` values are `Int` with an explicit two's-complement
conversion where the C converts. -/

/-- C conversion of an `int` to `uint32_t`. -/
def toUInt32c (x : Int) : Nat := (x.emod (2 ^ 32)).toNat

/-- C conversion of a `uint32_t` bit pattern to `int32_t`. -/
def toInt32c (n : Nat) : Int :=
  if n % 2 ^ 32 < 2 ^ 31 then ((n % 2 ^ 32 : Nat) : Int)
  else ((n % 2 ^ 32 : Nat) : Int) - 2 ^ 32

/-- `Log10ofPow2`: `(((uint32_t) p) * 78913) >> 18`. -/
def Log10ofPow2 (p : Int) : Nat := ((toUInt32c p * 78913) % 2 ^ 32) >>> 18

/-- `Log10ofPow5`: `(((uint32_t) p) * 732923) >> 20`. -/
def Log10ofPow5 (p : Int) : Nat := ((toUInt32c p * 732923) % 2 ^ 32) >>> 20

/-- `Log2ofPow5`: `(int32_t)((((uint32_t) p) * 1217359) >> 19)`. -/
def Log2ofPow5 (p : Int) : Int := toInt32c (((toUInt32c p * 1217359) % 2 ^ 32) >>> 19)

/-- `CeilLog2ofPow5`. -/
def CeilLog2ofPow5 (p : Int) : Int := Log2ofPow5 p + 1

/-- `DivisibleByPow2`: `(val & ((1ull << p) - 1)) == 0`. -/
def DivisibleByPow2 (val : Nat) (p : Nat) : Bool := val &&& ((1 <<< p) - 1) = 0

/-- The `while (true)` loop of `DivisibleByPow5`, counting how many times the
modular inverse of 5 keeps the value below `⌊2^64/5⌋`.  The count never
exceeds 27 for a non-zero 64-bit value, so fuel 64 is never exhausted there.
-/
def DivisibleByPow5_go : Nat → Nat → Nat → Nat
  | 0, _, count => count
  | fuel + 1, val, count =>
    let val2 := (val * 14757395258967641293) % 2 ^ 64
    if val2 > 3689348814741910323 then count
    else DivisibleByPow5_go fuel val2 (count + 1)

/-- `DivisibleByPow5`: true if `val` is divisible by `5^p`. -/
def DivisibleByPow5 (val : Nat) (p : Nat) : Bool := p ≤ DivisibleByPow5_go 64 val 0

/-- `MulShift64`: 64×128-bit multiply, shift by `j - 64`, truncate to 64
bits.  An oversized shift (undefined behaviour in C, reachable only when the
`q` computation has already wrapped) yields 0 here. -/
def MulShift64 (a : Nat) (b : Nat × Nat) (j : Int) : Nat :=
  let c0 := a * b.1
  let c2 := a * b.2
  ((((c0 >>> 64) + c2) % 2 ^ 128) >>> (j - 64).toNat) % 2 ^ 64

def POW5_TABLE : List Nat :=
  [1, 5, 25, 125, 625, 3125, 15625, 78125, 390625,
   1953125, 9765625, 48828125, 244140625, 1220703125, 6103515625,
   30517578125, 152587890625, 762939453125, 3814697265625,
   19073486328125, 95367431640625, 476837158203125,
   2384185791015625, 11920928955078125, 59604644775390625,
   298023223876953125]

def POW5_SPLIT2 : List (Nat × Nat) :=
  [(0, 1152921504606846976),
   (0, 1490116119384765625),
   (1032610780636961552, 1925929944387235853),
   (7910200175544436838, 1244603055572228341),
   (16941905809032713930, 1608611746708759036),
   (13024893955298202172, 2079081953128979843),
   (6607496772837067824, 1343575221513417750),
   (17332926989895652603, 1736530273035216783),
   (13037379183483547984, 2244412773384604712),
   (1605989338741628675, 1450417759929778918),
   (9630225068416591280, 1874621017369538693),
   (665883850346957067, 1211445438634777304),
   (14931890668723713708, 1565756531257009982)]

def POW5_OFFSETS : List Nat :=
  [0x00000000, 0x00000000, 0x00000000, 0x00000000, 0x40000000, 0x59695995,
   0x55545555, 0x56555515, 0x41150504, 0x40555410, 0x44555145, 0x44504540,
   0x45555550, 0x40004000, 0x96440440, 0x55565565, 0x54454045, 0x40154151,
   0x55559155, 0x51405555, 0x00000105]

def POW5_INV_SPLIT2 : List (Nat × Nat) :=
  [(1, 2305843009213693952),
   (5955668970331000884, 1784059615882449851),
   (8982663654677661702, 1380349269358112757),
   (7286864317269821294, 2135987035920910082),
   (7005857020398200553, 1652639921975621497),
   (17965325103354776697, 1278668206209430417),
   (8928596168509315048, 1978643211784836272),
   (10075671573058298858, 1530901034580419511),
   (597001226353042382, 1184477304306571148),
   (1527430471115325346, 1832889850782397517),
   (12533209867169019542, 1418129833677084982),
   (5577825024675947042, 2194449627517475473),
   (11006974540203867551, 1697873161311732311),
   (10313493231639821582, 1313665730009899186),
   (12701016819766672773, 2032799256770390445)]

def POW5_INV_OFFSETS : List Nat :=
  [0x54544554, 0x04055545, 0x10041000, 0x00400414, 0x40010000, 0x41155555,
   0x00000454, 0x00010044, 0x40000000, 0x44000041, 0x50454450, 0x55550054,
   0x51655554, 0x40004000, 0x01000001, 0x00010500, 0x51515411, 0x05555554,
   0x00000000]

/-- `Pow5Inv2k`: assemble `5^p / 2^(ceil(log2(5^p)) - 125)` from the split
tables.  An index outside the table (reachable only after the `q` wrap)
reads the `getD` default rather than the C out-of-bounds memory. -/
def Pow5Inv2k (p : Nat) : Nat × Nat :=
  let base := p / 26
  let base2 := base * 26
  let offset := p - base2
  let mul := POW5_SPLIT2.getD base (0, 0)
  if offset = 0 then mul
  else
    let m := POW5_TABLE.getD offset 0
    let b0 := m * mul.1
    let b2 := m * mul.2
    let delta := toUInt32c (CeilLog2ofPow5 (p : Int) - CeilLog2ofPow5 (base2 : Int))
    let shiftedSum := ((b0 >>> delta) + ((b2 <<< (64 - delta)) % 2 ^ 128) +
      ((POW5_OFFSETS.getD (p / 16) 0 >>> ((p % 16) * 2)) &&& 3)) % 2 ^ 128
    (shiftedSum % 2 ^ 64, shiftedSum >>> 64)

/-- `Pow2kInvPow5`: assemble `2^(floor(log2(5^p)) + 125) / 5^p + 1`. -/
def Pow2kInvPow5 (p : Nat) : Nat × Nat :=
  let base := (p + 26 - 1) / 26
  let base2 := base * 26
  let offset := base2 - p
  let mul := POW5_INV_SPLIT2.getD base (0, 0)
  if offset = 0 then mul
  else
    let m := POW5_TABLE.getD offset 0
    let b0 := m * (mul.1 - 1)
    let b2 := m * mul.2
    let delta := toUInt32c (CeilLog2ofPow5 (base2 : Int) - CeilLog2ofPow5 (p : Int))
    let shiftedSum := (((b0 >>> delta) + ((b2 <<< (64 - delta)) % 2 ^ 128)) + 1 +
      ((POW5_INV_OFFSETS.getD (p / 16) 0 >>> ((p % 16) * 2)) &&& 3)) % 2 ^ 128
    (shiftedSum % 2 ^ 64, shiftedSum >>> 64)

/-- Fast-path loop: move trailing decimal zeros into the exponent. -/
def yalc_d2d_strip0 : Nat → Nat → Int → Int × Nat
  | 0, f10, e10 => (e10, f10)
  | fuel + 1, f10, e10 =>
    if f10 % 10 ≠ 0 then (e10, f10) else yalc_d2d_strip0 fuel (f10 / 10) (e10 + 1)

/-- Digit-stripping state of step 4. -/
structure D2DState where
  a : Nat
  b : Nat
  c : Nat
  Za : Bool
  Zb : Bool
  last_removed_digit : Nat
  removed_digits : Nat
  deriving Repr

/-- First stripping loop of the `Za || Zb` branch. -/
def yalc_d2d_loop1 : Nat → D2DState → D2DState
  | 0, s => s
  | fuel + 1, s =>
    if s.c / 10 ≤ s.a / 10 then s
    else yalc_d2d_loop1 fuel
      { a := s.a / 10, b := s.b / 10, c := s.c / 10,
        Za := s.Za && decide (s.a % 10 = 0), Zb := s.Zb && decide (s.last_removed_digit = 0),
        last_removed_digit := s.b % 10, removed_digits := s.removed_digits + 1 }

/-- Second stripping loop (only when `Za`): strip while `a` ends in 0. -/
def yalc_d2d_loop2 : Nat → D2DState → D2DState
  | 0, s => s
  | fuel + 1, s =>
    if s.a % 10 ≠ 0 then s
    else yalc_d2d_loop2 fuel
      { a := s.a / 10, b := s.b / 10, c := s.c / 10,
        Za := s.Za, Zb := s.Zb && decide (s.last_removed_digit = 0),
        last_removed_digit := s.b % 10, removed_digits := s.removed_digits + 1 }

/-- Stripping loop of the no-trailing-zero branch, tracking `round_up`.
The `Za`/`Zb` fields are unused here; `last_removed_digit` carries
`round_up` as 0/1. -/
def yalc_d2d_loop3 : Nat → Nat × Nat × Nat → Bool → Nat → (Nat × Nat × Nat) × Bool × Nat
  | 0, abc, ru, removed => (abc, ru, removed)
  | fuel + 1, (a, b, c), ru, removed =>
    if c / 10 ≤ a / 10 then ((a, b, c), ru, removed)
    else yalc_d2d_loop3 fuel (a / 10, b / 10, c / 10) (decide (b % 10 ≥ 5)) (removed + 1)

/-- Step 4 of `yalc_double_to_decimal`: find the shortest representation in
`[a, c]`, with tie-breaking.  The loop fuel (40) strictly exceeds the digit
count of any 64-bit value, so the C loops are reproduced exactly. -/
def yalc_d2d_step4 (a b c : Nat) (Za Zb frac_is_even : Bool) (exponent10 : Int) : Int × Nat :=
  if Za || Zb then
    let s1 := yalc_d2d_loop1 40
      { a := a, b := b, c := c, Za := Za, Zb := Zb, last_removed_digit := 0, removed_digits := 0 }
    let s2 := if s1.Za then yalc_d2d_loop2 40 s1 else s1
    let last := if s2.Zb && decide (s2.last_removed_digit = 5) && decide (s2.b &&& 2 = 0) then 4
                else s2.last_removed_digit
    let fraction10 := s2.b +
      (if (s2.b = s2.a ∧ (frac_is_even = false ∨ s2.Za = false)) ∨ last ≥ 5 then 1 else 0)
    (exponent10 + s2.removed_digits, fraction10)
  else
    let st0 : (Nat × Nat × Nat) × Bool × Nat :=
      if a / 100 < c / 100 then ((a / 100, b / 100, c / 100), decide (b % 100 ≥ 50), 2)
      else ((a, b, c), false, 0)
    let s := yalc_d2d_loop3 40 st0.1 st0.2.1 st0.2.2
    let a2 := s.1.1
    let b2 := s.1.2.1
    let fraction10 := b2 + (if b2 = a2 ∨ s.2.1 = true then 1 else 0)
    (exponent10 + s.2.2, fraction10)

/-- Steps 2–4 of `yalc_double_to_decimal` (the general, non-integer path).
`exponent2`/`fraction2` are the values before the `-= 54` / `*= 4`
adjustment. -/
def yalc_d2d_general (exponent_biased : Nat) (significand : Nat) (exponent2 : Int)
    (fraction2 : Nat) (frac_is_even : Bool) : Int × Nat :=
  let exponent2 := exponent2 - (52 + 2)
  let fraction2 := fraction2 * 4
  let u_not_smallest : Bool := decide (significand ≠ 0) || decide (exponent_biased ≤ 1)
  let u := fraction2 - (if u_not_smallest then 2 else 1)
  let v := fraction2
  let w := fraction2 + 2
  if exponent2 ≥ 0 then
    -- (a, b, c) = ((u, v, w) * ((2^k/5^q) + 1)) / 2^(−exponent2 + q + k).
    -- `Log10ofPow2(exponent2) - 1` is a uint32_t subtraction: it wraps to
    -- 2^32 - 1 when the log is 0, and the unsigned max() keeps the wrapped
    -- value.
    let q : Nat := Nat.max 0 ((Log10ofPow2 exponent2 + (2 ^ 32 - 1)) % 2 ^ 32)
    let exponent10 : Int := toInt32c q
    let p : Int := exponent10
    let k : Int := 125 + Log2ofPow5 p
    let i : Int := -exponent2 + toInt32c q + k
    let tbl := Pow2kInvPow5 (toUInt32c p)
    let a := MulShift64 u tbl i
    let b := MulShift64 v tbl i
    let c := MulShift64 w tbl i
    if q ≤ 22 then
      let v_mod5 := ((v % 2 ^ 32) + 2 ^ 32 - ((5 * ((v / 5) % 2 ^ 32)) % 2 ^ 32)) % 2 ^ 32
      if v_mod5 = 0 then
        yalc_d2d_step4 a b c false (DivisibleByPow5 v q) frac_is_even exponent10
      else if frac_is_even then
        yalc_d2d_step4 a b c (DivisibleByPow5 u q) false frac_is_even exponent10
      else
        let c := (c + 2 ^ 64 - (if DivisibleByPow5 w q then 1 else 0)) % 2 ^ 64
        yalc_d2d_step4 a b c false false frac_is_even exponent10
    else
      yalc_d2d_step4 a b c false false frac_is_even exponent10
  else
    -- (a, b, c) = ((u, v, w) * (5^(-exponent2 - q)/2^k)) / 2^(q - k);
    -- the same uint32_t wrap applies to `Log10ofPow5(-exponent2) - 1`,
    -- and `k` and `i` are computed with uint32_t wraparound as in the C.
    let q : Nat := Nat.max 0 ((Log10ofPow5 (-exponent2) + (2 ^ 32 - 1)) % 2 ^ 32)
    let exponent10 : Int := toInt32c q + exponent2
    let p : Int := -exponent10
    let k : Nat := toUInt32c (CeilLog2ofPow5 p - 125)
    let i : Int := toInt32c (((q % 2 ^ 32) + (2 ^ 32 - k)) % 2 ^ 32)
    let tbl := Pow5Inv2k (toUInt32c p)
    let a := MulShift64 u tbl i
    let b := MulShift64 v tbl i
    let c := MulShift64 w tbl i
    if q ≤ 1 then
      if frac_is_even then
        yalc_d2d_step4 a b c u_not_smallest true frac_is_even exponent10
      else
        let c := (c + 2 ^ 64 - 1) % 2 ^ 64
        yalc_d2d_step4 a b c false true frac_is_even exponent10
    else if q ≤ 63 then
      yalc_d2d_step4 a b c false (DivisibleByPow2 v q) frac_is_even exponent10
    else
      yalc_d2d_step4 a b c false false frac_is_even exponent10

/-- `yalc_double_to_decimal` (`ryu.c`): shortest-decimal conversion of a
finite non-zero binary64 given as biased exponent and stored significand.
Returns `(exponent10, fraction10)`. -/
def yalc_double_to_decimal (exponent_biased : Nat) (significand : Nat) : Int × Nat :=
  let ef : Int × Nat :=
    if exponent_biased ≠ 0 then
      ((exponent_biased : Int) - 1023, significand ||| (1 <<< 52))
    else (0 - 1023 + 1, significand)
  let exponent2 := ef.1
  let fraction2 := ef.2
  let frac_is_even := decide (fraction2 % 2 = 0)
  if 0 < exponent2 ∧ exponent2 < 52 then
    let e2n := exponent2.toNat
    let frac_mask := (1 <<< (52 - e2n)) - 1
    let tmp_fraction := fraction2 &&& frac_mask
    if tmp_fraction = 0 then
      yalc_d2d_strip0 20 (fraction2 >>> (52 - e2n)) 0
    else
      yalc_d2d_general exponent_biased significand exponent2 fraction2 frac_is_even
  else
    yalc_d2d_general exponent_biased significand exponent2 fraction2 frac_is_even

/-- `yalc_round_to_digits` (`ryu.c`): round a decimal digit string (given as
a magnitude) from `current_digits` to `desired_digits` digits, ties to even.
`POW10(n)` is `POW5_TABLE[n] << n`. -/
def yalc_round_to_digits (value : Nat) (current_digits desired_digits : Int) : Nat :=
  if desired_digits ≥ current_digits ∨ desired_digits ≥ 17 then value
  else
    let digits_to_remove := (current_digits - desired_digits).toNat
    let divisor := (POW5_TABLE.getD digits_to_remove 0) <<< digits_to_remove
    let quotient := value / divisor
    let remainder := value % divisor
    let half := divisor / 2
    if remainder > half then quotient + 1
    else if remainder = half ∧ quotient % 2 = 1 then quotient + 1
    else quotient

/-- `yalc_count_digits` hex loop: count 4-bit shifts until zero. -/
def yalc_count_digits_hex : Nat → Nat → Nat
  | 0, _ => 0
  | fuel + 1, val => if val >>> 4 = 0 then 0 else 1 + yalc_count_digits_hex fuel (val >>> 4)

/-- `yalc_count_digits` decimal loop: count powers of ten `≤ val`. -/
def yalc_count_digits_dec : Nat → Nat → Nat → Nat
  | 0, _, _ => 0
  | fuel + 1, c, val => if c ≤ val then 1 + yalc_count_digits_dec fuel ((c <<< 3) + (c <<< 1)) val
                        else 0

/-- `yalc_count_digits`: digit count of `val` in the given radix (only the
hex case is special; every other radix uses the decimal loop, as in C). -/
def yalc_count_digits (val : Nat) (radix : Nat) : Nat :=
  if radix = 16 then 1 + yalc_count_digits_hex (val + 1) val
  else 1 + yalc_count_digits_dec (val + 1) 10 val

/-! ## Float renderer (`yalc_putd`)

Takes the binary64 bit pattern (the C function starts by type-punning its
`double` argument into `uint64_t`).  Split by value class / form exactly as
the C `switch`; each leg produces the Field Data handed to
`yalc_pf_field_out`. -/

/-- a-form subnormal normalization: shift until the leading (53rd) bit is
set, decrementing the exponent. -/
def yalc_putd_aform_norm : Nat → Nat → Int → Nat × Int
  | 0, sig, e => (sig, e)
  | fuel + 1, sig, e =>
    if sig &&& (1 <<< 52) ≠ 0 then (sig, e)
    else yalc_putd_aform_norm fuel ((sig <<< 1) % 2 ^ 64) (e - 1)

/-- The a-form (`%a`) leg of `yalc_putd`, from the normalization through the
`p±E` suffix.  Returns the Field Data (sans sign) and the updated
descriptor. -/
def yalc_putd_aform (exponent_biased significand : Nat) (is_uppercase : Bool)
    (prefix0 : List Char) (fi : FormatInfo) : FieldData × FormatInfo :=
  let se : Nat × Int :=
    if exponent_biased = 0 then yalc_putd_aform_norm 64 significand (-1022)
    else (significand ||| (1 <<< 52), (exponent_biased : Int) - 1023)
  let significand := se.1
  let exp_val := se.2
  -- round the 53-bit significand to the requested number of hex digits
  let se2 : Nat × Int :=
    if fi.precision < 13 then
      let bits_to_keep := fi.precision * 4
      let bits_to_remove := 52 - bits_to_keep
      if bits_to_remove > 0 then
        let btr := bits_to_remove.toNat
        let msb := 1 <<< btr
        let round_bit := 1 <<< (btr - 1)
        let sticky_mask := round_bit - 1
        let se1 : Nat × Int :=
          if significand &&& round_bit ≠ 0 ∧
             (significand &&& sticky_mask ≠ 0 ∨ significand &&& msb ≠ 0) then
            let s2 := (significand + msb) % 2 ^ 64
            if s2 &&& (1 <<< 53) ≠ 0 then (s2 >>> 1, exp_val + 1) else (s2, exp_val)
          else (significand, exp_val)
        (se1.1 &&& (2 ^ 64 - msb), se1.2)
      else (significand, exp_val)
    else (significand, exp_val)
  let significand := se2.1
  let exp_val := se2.2
  let r := yalc_itora significand fi
  let digits := r.1
  let fi := r.2
  let len := digits.length - 1
  let pre := prefix0 ++ ['0', if is_uppercase then 'X' else 'x', digits.getLastD '0']
  let digits := digits.dropLast
  let pre := if fi.precision ≠ 0 ∨ fi.flags &&& FFLAG_ALT ≠ 0 then pre ++ ['.'] else pre
  let fi := if cSizeT fi.precision > len then { fi with num_pad := fi.precision - (len : Int) }
            else fi
  let dl : List Char × Nat :=
    if len > cSizeT fi.precision then
      (digits.drop (len - cSizeT fi.precision), cSizeT fi.precision)
    else (digits, len)
  let fi := { fi with radix := 10 }
  let r2 := yalc_itora (if exp_val < 0 then (-exp_val).toNat else exp_val.toNat) fi
  let fi := r2.2
  let sfx := r2.1 ++ [if exp_val < 0 then '-' else '+', if is_uppercase then 'P' else 'p']
  let fi := { fi with flags := fi.flags ||| TRFLAG_REVERSE_SUFFIX }
  ({ inbuff := dl.1.take dl.2, prefixBuf := pre, suffixBuf := sfx, sign_char := nulChar }, fi)

/-- The e-form leg (`case 2`, also reached from g-form with its adjusted
precision): `[+-]d.ddd… e±XX`. -/
def yalc_putd_eform (fraction10 : Nat) (exponent10 : Int) (frac_digits : Int)
    (add_trailing_zeros is_uppercase : Bool) (prefix0 : List Char) (fi : FormatInfo) :
    FieldData × FormatInfo :=
  let int_digits : Int := 1
  let decimal_digits : Int := frac_digits - int_digits
  let fef : Nat × Int × FormatInfo :=
    if fi.precision < decimal_digits then
      let f2 := yalc_round_to_digits fraction10 decimal_digits fi.precision
      let skipped_digits := decimal_digits - fi.precision
      let rounded_decimals := (yalc_count_digits f2 10 : Int)
      if rounded_decimals > frac_digits - skipped_digits then (f2 / 10, exponent10 + 1, fi)
      else (f2, exponent10, fi)
    else if add_trailing_zeros then
      (fraction10, exponent10, { fi with num_pad := fi.precision - decimal_digits })
    else (fraction10, exponent10, fi)
  let fraction10 := fef.1
  let exponent10 := fef.2.1
  let fi := fef.2.2
  let r := yalc_itora fraction10 fi
  let fi := r.2
  let len := r.1.length - 1
  let pre := prefix0 ++ [r.1.getLastD '0']
  let digits := r.1.dropLast
  let pre := if (0 < len ∨ fi.num_pad ≠ 0) ∨ fi.flags &&& FFLAG_ALT ≠ 0 then pre ++ ['.']
             else pre
  let exp_val := exponent10 + decimal_digits
  let r2 := yalc_itora (if exp_val < 0 then (-exp_val).toNat else exp_val.toNat) fi
  let fi := r2.2
  let sdigits := if r2.1.length < 2 then r2.1 ++ ['0'] else r2.1
  let sfx := sdigits ++ [if exp_val < 0 then '-' else '+', if is_uppercase then 'E' else 'e']
  let fi := { fi with flags := fi.flags ||| TRFLAG_REVERSE_SUFFIX }
  ({ inbuff := digits, prefixBuf := pre, suffixBuf := sfx, sign_char := nulChar }, fi)

/-- The f-form leg (`default:` / `f_form:` label), with its three sub-cases
on where the decimal point falls. -/
def yalc_putd_fform (fraction10 : Nat) (exponent10 : Int) (frac_digits : Int)
    (add_trailing_zeros : Bool) (prefix0 : List Char) (fi : FormatInfo) :
    FieldData × FormatInfo :=
  let int_digits : Int := frac_digits + exponent10
  if int_digits ≥ frac_digits then
    -- Case 1: an integer followed by exponent10 zeros
    let r := yalc_itora fraction10 fi
    let fi : FormatInfo := { r.2 with num_pad := exponent10 }
    let sf : List Char × FormatInfo :=
      if (add_trailing_zeros && decide (fi.precision ≠ 0)) ||
         decide (fi.flags &&& FFLAG_ALT ≠ 0) then
        (['.'], { fi with suffix_pad := fi.precision })
      else ([], fi)
    ({ inbuff := r.1, prefixBuf := prefix0, suffixBuf := sf.1, sign_char := nulChar }, sf.2)
  else if int_digits ≤ 0 then
    -- Case 2: 0.(leading zeros)(digits)
    let leading_zeroes : Int := -exponent10 - frac_digits
    let decimal_digits : Int := leading_zeroes + frac_digits
    let dcf : List Char × Nat × FormatInfo :=
      if fi.precision ≤ leading_zeroes then
        if add_trailing_zeros then ([], 0, { fi with num_pad := -fi.precision })
        else ([], 0, { fi with precision := 0 })
      else if fi.precision ≥ decimal_digits then
        let r := yalc_itora fraction10 fi
        let fi := { r.2 with num_pad := -leading_zeroes }
        if add_trailing_zeros then
          (r.1, 0, { fi with suffix_pad := fi.precision - decimal_digits })
        else (r.1, 0, fi)
      else
        let remaining_digits := fi.precision - leading_zeroes
        let f2 := yalc_round_to_digits fraction10 frac_digits remaining_digits
        let r := yalc_itora f2 fi
        let fi := r.2
        let dcf0 : List Char × Nat × FormatInfo :=
          if (r.1.length : Int) > remaining_digits then
            if add_trailing_zeros then ([], 1, { fi with suffix_pad := remaining_digits })
            else ([], 1, { fi with precision := 0 })
          else (r.1, 0, fi)
        (dcf0.1, dcf0.2.1, { dcf0.2.2 with num_pad := -leading_zeroes })
    let digits := dcf.1
    let carry := dcf.2.1
    let fi := dcf.2.2
    let pre := prefix0 ++ [Char.ofNat ('0'.toNat + carry)] ++
      (if fi.precision ≠ 0 ∨ fi.flags &&& FFLAG_ALT ≠ 0 then ['.'] else [])
    ({ inbuff := digits, prefixBuf := pre, suffixBuf := [], sign_char := nulChar }, fi)
  else
    -- Case 3: the decimal point falls inside the digit string; the prefix
    -- and suffix are re-pointed into the digit buffer and the emitted
    -- fragment holding the dot is the one-character `num`.
    let decimal_digits : Int := frac_digits - int_digits
    let fs : Nat × Nat :=
      if fi.precision < decimal_digits then
        (yalc_round_to_digits fraction10 decimal_digits fi.precision, fi.precision.toNat)
      else (fraction10, decimal_digits.toNat)
    let r := yalc_itora fs.1 fi
    let fi := r.2
    let suffix_len := fs.2
    let buf := r.1 ++ (if prefix0.length ≠ 0 then [prefix0.headD ' '] else [])
    let pre := buf.drop suffix_len
    let untrimmed := buf.take suffix_len
    let suffix_len2 := suffix_len - (untrimmed.takeWhile (fun c => c = '0')).length
    let nlf : List Char × FormatInfo :=
      if (add_trailing_zeros && decide (suffix_len ≠ 0)) || decide (suffix_len2 ≠ 0) ||
         decide (fi.flags &&& FFLAG_ALT ≠ 0) then
        (['.'], if add_trailing_zeros then
                  { fi with suffix_pad := fi.precision - (suffix_len2 : Int) } else fi)
      else ([], fi)
    let fi := { nlf.2 with flags := nlf.2.flags ||| TRFLAG_REVERSE_PREFIX ||| TRFLAG_REVERSE_SUFFIX }
    ({ inbuff := nlf.1, prefixBuf := pre, suffixBuf := buf.take suffix_len2,
       sign_char := nulChar }, fi)

/-- `yalc_putd` up to (and excluding) the final `yalc_pf_field_out` call.
`bits` is the binary64 bit pattern of the `double` argument. -/
def yalc_putd_core (bits : Nat) (fi : FormatInfo) : FieldData × FormatInfo :=
  let sign := bits &&& (1 <<< 63) ≠ 0
  let exponent_biased : Nat := (bits >>> 52) &&& 0x7FF
  let significand : Nat := bits &&& ((1 <<< 52) - 1)
  let is_uppercase := fi.flags &&& SFLAG_UPPERCASE ≠ 0
  let fi := if fi.flags &&& SFLAG_HAS_PREC = 0 then
      { fi with precision := if fi.flags &&& SFLAG_IS_AFORM ≠ 0 then 13 else 6 }
    else fi
  let fi := if fi.precision > 4096 then { fi with precision := 4096 } else fi
  let sign_char : Char :=
    if sign then '-'
    else if fi.flags &&& FFLAG_ADDSIGN ≠ 0 then '+'
    else if fi.flags &&& FFLAG_NOPSIGN ≠ 0 then ' '
    else nulChar
  let ps : List Char × Char :=
    if fi.flags &&& FFLAG_ZERO_PAD = 0 ∧ sign_char ≠ nulChar then ([sign_char], nulChar)
    else ([], sign_char)
  let prefix0 := ps.1
  let sign_char := ps.2
  if exponent_biased = 0x7FF then
    let fi := { fi with precision := 0 }
    let num : List Char :=
      if significand ≠ 0 then (if is_uppercase then ['N', 'A', 'N'] else ['n', 'a', 'n'])
      else (if is_uppercase then ['I', 'N', 'F'] else ['i', 'n', 'f'])
    ({ inbuff := num, prefixBuf := prefix0, suffixBuf := [], sign_char := sign_char }, fi)
  else if exponent_biased = 0 ∧ significand = 0 then
    let pre := prefix0 ++
      (if fi.flags &&& SFLAG_IS_AFORM ≠ 0 then ['0', if is_uppercase then 'X' else 'x'] else [])
      ++ ['0']
    let pf : List Char × FormatInfo :=
      if fi.flags &&& SFLAG_IS_GFORM ≠ SFLAG_IS_GFORM ∨ fi.flags &&& FFLAG_ALT ≠ 0 then
        if fi.precision ≠ 0 then (pre ++ ['.'], { fi with num_pad := fi.precision })
        else (pre, fi)
      else (pre, fi)
    let sfx : List Char :=
      if fi.flags &&& SFLAG_IS_GFORM = SFLAG_IS_EFORM then
        [if is_uppercase then 'E' else 'e', '+', '0', '0']
      else if fi.flags &&& SFLAG_IS_AFORM ≠ 0 then
        [if is_uppercase then 'P' else 'p', '+', '0']
      else []
    ({ inbuff := [], prefixBuf := pf.1, suffixBuf := sfx, sign_char := sign_char }, pf.2)
  else
    let form := (fi.flags >>> 22) &&& 7
    let ef : Int × Nat :=
      if form < 4 then yalc_double_to_decimal exponent_biased significand else (0, 0)
    let exponent10 := ef.1
    let fraction10 := ef.2
    let frac_digits : Int :=
      if form < 4 then (yalc_count_digits fraction10 fi.radix : Int) else 0
    let res : FieldData × FormatInfo :=
      if form = 4 then
        yalc_putd_aform exponent_biased significand is_uppercase prefix0 fi
      else if form = 3 then
        let fi := if fi.precision = 0 then { fi with precision := 1 } else fi
        let add_trailing_zeros := ¬ (fi.flags &&& FFLAG_ALT = 0)
        let exp_val := exponent10 + frac_digits - 1
        if fi.precision > exp_val ∧ exp_val ≥ -4 then
          yalc_putd_fform fraction10 exponent10 frac_digits add_trailing_zeros prefix0
            { fi with precision := fi.precision - (exp_val + 1) }
        else
          yalc_putd_eform fraction10 exponent10 frac_digits add_trailing_zeros is_uppercase
            prefix0 { fi with precision := fi.precision - 1 }
      else if form = 2 then
        yalc_putd_eform fraction10 exponent10 frac_digits true is_uppercase prefix0 fi
      else
        yalc_putd_fform fraction10 exponent10 frac_digits true prefix0 fi
    ({ res.1 with sign_char := sign_char }, res.2)

/-- The characters emitted by `yalc_putd`. -/
def yalc_putd_chars (bits : Nat) (fi : FormatInfo) : List Char :=
  let r := yalc_putd_core bits fi
  yalc_pf_field_chars r.1 r.2

/-- `yalc_putd`: render a float conversion through the sink. -/
def yalc_putd (bits : Nat) (fi : FormatInfo) (out : OutputInfo) : OutputInfo :=
  yalc_pf_run (yalc_putd_chars bits fi) out

/-! ## Dispatch loop and entry points (`yalc_xprintf`, `vsnprintf`, …)

Type sizes are those of the LP64 RISC-V target: `int` 4, `long`/`long long`
/`size_t`/`ptrdiff_t`/`intmax_t` 8, `short` 2, `char` 1; the fast types are
1/8/8/8 bytes. -/

/-- `strnlen` over the modelled string (characters before the terminator).
-/
def strnlen (s : List Char) (maxlen : Nat) : Nat := min s.length maxlen

/-- `va_arg(*va, double)` (value carried as its bit pattern). -/
def takeDblArg : List Arg → Nat × List Arg
  | Arg.dbl b :: rest => (b, rest)
  | _ :: rest => (0, rest)
  | [] => (0, [])

/-- `va_arg(*va, char*)`. -/
def takeStrArg : List Arg → Option (List Char) × List Arg
  | Arg.str s :: rest => (s, rest)
  | _ :: rest => (none, rest)
  | [] => (none, [])

/-- Wrap a mathematical integer to a `w`-bit two's-complement value. -/
def wrapSigned (w : Nat) (v : Int) : Int := ((v + 2 ^ (w - 1)).emod (2 ^ w)) - 2 ^ (w - 1)

/-- The argument-width resolution of the `TFLAG_INT` case: the length
modifier (or explicit bit width) to the bit length used by the `va_arg`
switch.  `none` models the two `return -EINVAL` legs. -/
def yalc_xprintf_int_bitlen (fi : FormatInfo) : Option Nat :=
  if fi.int_bitlen = 0 then
    some ((if fi.flags &&& LFLAG_INTMAX ≠ 0 then 8
      else if fi.flags &&& LFLAG_LONG_LONG ≠ 0 then 8
      else if fi.flags &&& LFLAG_LONG ≠ 0 then 8
      else if fi.flags &&& LFLAG_SIZET ≠ 0 then 8
      else if fi.flags &&& LFLAG_PTRDIFF ≠ 0 then 8
      else if fi.flags &&& LFLAG_HALF ≠ 0 then 2
      else if fi.flags &&& LFLAG_HALF_HALF ≠ 0 then 1
      else 4) * 8)
  else if fi.flags &&& SFLAG_IS_FAST ≠ 0 then
    if fi.int_bitlen = 8 then some (1 * 8)
    else if fi.int_bitlen = 16 then some (8 * 8)
    else if fi.int_bitlen = 32 then some (8 * 8)
    else if fi.int_bitlen = 64 then some (8 * 8)
    else none
  else if fi.int_bitlen = 8 ∨ fi.int_bitlen = 16 ∨ fi.int_bitlen = 32 ∨ fi.int_bitlen = 64 then
    some fi.int_bitlen.toNat
  else none

/-- The dispatch loop of `yalc_xprintf`.  The fuel argument (`fmt.length+1`
at entry) only bounds the recursion: every step consumes at least one
character of the remaining format text, so it is never exhausted. -/
def yalc_xprintf_go : Nat → List Char → OutputInfo → List Arg → OutputInfo × Int
  | 0, _, out, _ => (out, out.chars_out)
  | _ + 1, [], out, _ => (out, out.chars_out)
  | fuel + 1, c :: rest, out, va =>
    if c ≠ '%' then yalc_xprintf_go fuel rest (yalc_pf_char_out c out) va
    else match rest with
    | [] => (out, out.chars_out)
    | c2 :: rest2 =>
      if c2 = '%' then yalc_xprintf_go fuel rest2 (yalc_pf_char_out '%' out) va
      else
        match yalc_pf_parse_format (c :: rest) va with
        | .error e => (out, e)
        | .ok (ret, fi, va) =>
          let rest3 := (c :: rest).drop (ret + 1)
          let type := fi.flags &&& TFLAG_MASK
          if type = TFLAG_INT then
            match yalc_xprintf_int_bitlen fi with
            | none => (out, -EINVAL)
            | some bl =>
              let fi := { fi with int_bitlen := (bl : Int) }
              let is_signed := fi.flags &&& SFLAG_IS_SIGNED ≠ 0
              let raw := takeIntArg va
              let umax : Nat :=
                if is_signed then ((wrapSigned bl raw.1).emod (2 ^ 64)).toNat
                else (raw.1.emod (2 ^ bl)).toNat
              yalc_xprintf_go fuel rest3 (yalc_putll umax fi out) raw.2
          else if type = TFLAG_DOUBLE then
            if fi.flags &&& LFLAG_LONG ≠ 0 then
              let va := match va with | _ :: r => r | [] => []
              let fld := { yalc_clear_fld with inbuff := ['(', 'n', '/', 'a', ')'] }
              yalc_xprintf_go fuel rest3 (yalc_pf_field_out fld fi out) va
            else
              let raw := takeDblArg va
              yalc_xprintf_go fuel rest3 (yalc_putd raw.1 fi out) raw.2
          else if type = TFLAG_CHAR then
            let raw := takeIntArg va
            let fld := { yalc_clear_fld with inbuff := [Char.ofNat (raw.1.emod 256).toNat] }
            yalc_xprintf_go fuel rest3 (yalc_pf_field_out fld fi out) raw.2
          else if type = TFLAG_STRING then
            let raw := takeStrArg va
            match raw.1 with
            | none =>
              let fld := { yalc_clear_fld with inbuff := ['(', 'n', 'u', 'l', 'l', ')'] }
              yalc_xprintf_go fuel rest3 (yalc_pf_field_out fld fi out) raw.2
            | some s =>
              let n := if fi.flags &&& SFLAG_HAS_PREC ≠ 0 ∧ fi.precision ≥ 0 then
                  strnlen s fi.precision.toNat
                else strnlen s 4095
              let fld := { yalc_clear_fld with inbuff := s.take n }
              yalc_xprintf_go fuel rest3 (yalc_pf_field_out fld fi out) raw.2
          else yalc_xprintf_go fuel rest3 out va

/-- `yalc_xprintf`: walk the format text, emitting through the sink; returns
the final sink state and the C return value. -/
def yalc_xprintf (out : OutputInfo) (fmt : List Char) (va : List Arg) : OutputInfo × Int :=
  yalc_xprintf_go (fmt.length + 1) fmt out va

/-- `vsnprintf`: bounded write into `outbuff` of capacity `outbuff_len`. -/
def vsnprintf (outbuff : Nat → Char) (outbuff_len : Nat) (fmt : List Char) (va : List Arg) :
    (Nat → Char) × Int :=
  let r := yalc_xprintf
    { outbuff := some outbuff, outbuff_len := outbuff_len, chars_out := 0 } fmt va
  (r.1.outbuff.getD outbuff, r.2)

/-- `vprintf`: unbounded write to the console sink (lock elided: it only
serializes concurrent callers). -/
def vprintf (fmt : List Char) (va : List Arg) : Int :=
  (yalc_xprintf { outbuff := none, outbuff_len := 0, chars_out := 0 } fmt va).2


/-! # Theorems

Helper lemmas on the bit-mask arithmetic, the parser invariants, and the
per-claim theorems. -/

theorem land_lor (a b m : Nat) : (a ||| b) &&& m = (a &&& m) ||| (b &&& m) := by
  apply Nat.eq_of_testBit_eq; intro k
  simp [Nat.testBit_land, Nat.testBit_lor, Bool.and_or_distrib_right]

theorem land_mask_sub (f C M : Nat) (h : C &&& M = M) : (f &&& C) &&& M = f &&& M := by
  rw [Nat.land_assoc, h]

/-- Exactly one conversion-type bit of the descriptor flag word is set. -/
def oneTypeBit (flags : Nat) : Prop :=
  flags &&& TFLAG_MASK ∈ [TFLAG_INT, TFLAG_DOUBLE, TFLAG_CHAR, TFLAG_STRING, TFLAG_PTR, TFLAG_CTR]

instance (flags : Nat) : Decidable (oneTypeBit flags) := by
  unfold oneTypeBit; infer_instance

/-- The post-loop checks preserve the conversion-type bits, return the loop
index unchanged, and only succeed when the half/long length bits are not
both set. -/
theorem yalc_pf_parse_post_ok {i : Nat} {fi : FormatInfo} {va : List Arg} {j : Nat}
    {fi2 : FormatInfo} {va2 : List Arg}
    (h : yalc_pf_parse_post i fi va = .ok (j, fi2, va2)) :
    j = i ∧ va2 = va ∧ fi2.flags &&& TFLAG_MASK = fi.flags &&& TFLAG_MASK ∧
    (fi2.flags &&& LFLAG_HALF = 0 ∨ fi2.flags &&& LFLAG_LONG = 0) := by
  have m1 : ∀ f : Nat, (f &&& 0xFFFFFFFD) &&& TFLAG_MASK = f &&& TFLAG_MASK :=
    fun f => land_mask_sub f _ _ (by decide)
  have m2 : ∀ f : Nat, (f &&& 0xFFFFFFFD) &&& LFLAG_HALF = f &&& LFLAG_HALF :=
    fun f => land_mask_sub f _ _ (by decide)
  have m3 : ∀ f : Nat, (f &&& 0xFFFFFFFD) &&& LFLAG_LONG = f &&& LFLAG_LONG :=
    fun f => land_mask_sub f _ _ (by decide)
  unfold yalc_pf_parse_post at h
  by_cases h1 : (fi.flags &&& TFLAG_MASK) &&& ((fi.flags &&& TFLAG_MASK) - 1) ≠ 0
  · rw [if_pos h1] at h
    exact absurd h (by simp)
  · rw [if_neg h1] at h
    by_cases h2 : fi.flags &&& LFLAG_HALF ≠ 0 ∧ fi.flags &&& LFLAG_LONG ≠ 0
    · rw [if_pos h2] at h
      exact absurd h (by simp)
    · rw [if_neg h2] at h
      have base : fi.flags &&& LFLAG_HALF = 0 ∨ fi.flags &&& LFLAG_LONG = 0 := by
        push_neg at h2
        by_cases hh : fi.flags &&& LFLAG_HALF = 0
        · exact Or.inl hh
        · exact Or.inr (h2 hh)
      split at h
      all_goals try simp only [] at h
      all_goals try split at h
      all_goals simp only [Except.ok.injEq, Prod.mk.injEq] at h
      all_goals obtain ⟨hj, hfi, hva⟩ := h
      all_goals subst hfi
      all_goals
        exact ⟨hj.symm, hva.symm, by first | rfl | simp only [m1],
               by (try simp only [m2, m3]); exact base⟩

/-- The conversion-letter epilogue: as `yalc_pf_parse_post_ok`, and the
descriptor must carry a conversion-type bit. -/
theorem yalc_pf_finish_type_ok {i : Nat} {fi : FormatInfo} {va : List Arg} {j : Nat}
    {fi2 : FormatInfo} {va2 : List Arg}
    (h : yalc_pf_finish_type i fi va = .ok (j, fi2, va2)) :
    j = i ∧ va2 = va ∧ fi2.flags &&& TFLAG_MASK = fi.flags &&& TFLAG_MASK ∧
    (fi2.flags &&& LFLAG_HALF = 0 ∨ fi2.flags &&& LFLAG_LONG = 0) := by
  unfold yalc_pf_finish_type at h
  split at h
  · exact absurd h (by simp)
  · exact yalc_pf_parse_post_ok h

theorem step_len1 (i : Nat) (c : Char) (rest : List Char) :
    i + (c :: rest).length = (i + 1) + rest.length := by
  simp [List.length_cons]; omega

theorem step_len2 (i : Nat) (c c2 : Char) (rest : List Char) :
    i + (c :: c2 :: rest).length = (i + 2) + rest.length := by
  simp [List.length_cons]; omega

set_option maxHeartbeats 2000000 in
/-- Main parser-loop invariant: starting with no conversion-type bits, a
successful parse either stopped at a conversion letter (exactly one type
bit, index before the end) or exhausted the text (no type bit, index equal
to the end); and the half and long length bits are never both set. -/
theorem yalc_pf_parse_go_ok (cs : List Char) (i : Nat) (fi : FormatInfo) (wfa pfa hb : Bool)
    (va : List Arg) :
    fi.flags &&& TFLAG_MASK = 0 →
    ∀ j fi2 va2, yalc_pf_parse_go cs i fi wfa pfa hb va = .ok (j, fi2, va2) →
    ((oneTypeBit fi2.flags ∧ j < i + cs.length) ∨
     (fi2.flags &&& TFLAG_MASK = 0 ∧ j = i + cs.length)) ∧
    (fi2.flags &&& LFLAG_HALF = 0 ∨ fi2.flags &&& LFLAG_LONG = 0) := by
  induction cs, i, fi, wfa, pfa, hb, va using yalc_pf_parse_go.induct
  all_goals intro hTF j fi2 va2 h
  all_goals try simp only [Bool.not_eq_true] at *
  all_goals try subst_vars
  all_goals try simp only [yalc_pf_parse_go, reduceIte, ne_eq, and_true, true_and, and_self,
    not_false_eq_true, not_true_eq_false, *] at h
  all_goals try exact Except.noConfusion h
  all_goals try (
    obtain ⟨hj, hva, hTFeq, hhl⟩ := yalc_pf_parse_post_ok h
    subst hj
    exact ⟨Or.inr ⟨by rw [hTFeq]; exact hTF, by simp⟩, hhl⟩)
  all_goals try (
    rename_i ih
    rw [step_len2]
    exact ih (by
      first
      | exact hTF
      | (simp only [land_lor, hTF]; decide)
      | (rw [land_mask_sub _ 0xFFF7FFFF TFLAG_MASK (by decide)]; exact hTF)) j fi2 va2 h)
  all_goals try (
    rename_i ih
    rw [step_len1]
    exact ih (by
      first
      | exact hTF
      | (simp only [land_lor, hTF]; decide)
      | (rw [land_mask_sub _ 0xFFF7FFFF TFLAG_MASK (by decide)]; exact hTF)) j fi2 va2 h)
  all_goals try (
    rename_i ih
    rcases ‹_ ∧ _› with ⟨-, hpfa⟩
    subst hpfa
    rw [step_len1]
    exact ih (by
      first
      | exact hTF
      | (simp only [land_lor, hTF]; decide)) j fi2 va2 h)
  all_goals try (
    first
    | (obtain ⟨hj, hva, hTFeq, hhl⟩ := yalc_pf_finish_type_ok h
       subst hj
       exact ⟨Or.inl ⟨by unfold oneTypeBit; rw [hTFeq]; simp only [land_lor, hTF]; decide,
                      by simp only [List.length_cons]; omega⟩, hhl⟩)
    | (split at h
       · exact absurd h (by simp)
       · obtain ⟨hj, hva, hTFeq, hhl⟩ := yalc_pf_finish_type_ok h
         subst hj
         exact ⟨Or.inl ⟨by unfold oneTypeBit; rw [hTFeq]; simp only [land_lor, hTF]; decide,
                        by simp only [List.length_cons]; omega⟩, hhl⟩))

/-- C3 (counterexample): the directive `"%5"` — a `%` followed by a width
whose format text ends before any conversion letter — parses successfully
(the returned index 2 is non-negative) yet no conversion-type bit is set in
the resulting descriptor, contradicting the claim as stated. -/
theorem C3_counterexample_no_type_bit :
    yalc_pf_parse_format ['%', '5'] [] =
      .ok (2, { flags := 0x40000, width := 5, precision := 0, int_bitlen := 0,
                num_pad := 0, suffix_pad := 0, radix := 10 }, []) ∧
    ¬ oneTypeBit 0x40000 := ⟨by rfl, by decide⟩

/-- C3 (amended): on every successful parse at most one conversion-type bit
is set: exactly one when the parser stopped at a conversion letter (the
returned index is then less than the format length), and none exactly when
the format text was exhausted without a conversion letter (the returned
index then equals the format length). -/
theorem C3_parse_format_type_class (fmt : List Char) (va : List Arg) (j : Nat)
    (fi : FormatInfo) (va2 : List Arg) (hne : fmt ≠ [])
    (h : yalc_pf_parse_format fmt va = .ok (j, fi, va2)) :
    (oneTypeBit fi.flags ∧ j < fmt.length) ∨
    (fi.flags &&& TFLAG_MASK = 0 ∧ j = fmt.length) := by
  have hres := yalc_pf_parse_go_ok (fmt.drop 1) 1 yalc_clear_fi false false false va
    (by decide) j fi va2 h
  have hlen : 1 + (fmt.drop 1).length = fmt.length := by
    cases fmt with
    | nil => exact absurd rfl hne
    | cons c r => simp [List.length_cons]; omega
  rcases hres.1 with ⟨ho, hlt⟩ | ⟨hz, hj⟩
  · exact Or.inl ⟨ho, by omega⟩
  · exact Or.inr ⟨hz, by omega⟩

/-- C3 (witness): the amended theorem applied to the directive `"%d"`. -/
theorem C3_witness :
    (oneTypeBit 0x201000 ∧ 1 < (['%', 'd'] : List Char).length) ∨
    ((0x201000 : Nat) &&& TFLAG_MASK = 0 ∧ 1 = (['%', 'd'] : List Char).length) :=
  C3_parse_format_type_class ['%', 'd'] [] 1
    { flags := 0x201000, width := 0, precision := 0, int_bitlen := 0,
      num_pad := 0, suffix_pad := 0, radix := 10 } [] (by decide) (by rfl)

/-- C5 (counterexample): `"%hhhd"` and `"%llld"` — length modifiers with a
third repeated `h` resp. `l` — do not fail: both parse successfully (as
`hh` resp. `ll`), contradicting the claim that a third repeat fails with
the invalid-argument status code. -/
theorem C5_counterexample_third_repeat :
    yalc_pf_parse_format ['%', 'h', 'h', 'h', 'd'] [] =
      .ok (4, { flags := 0x201060, width := 0, precision := 0, int_bitlen := 0,
                num_pad := 0, suffix_pad := 0, radix := 10 }, []) ∧
    yalc_pf_parse_format ['%', 'l', 'l', 'l', 'd'] [] =
      .ok (4, { flags := 0x201180, width := 0, precision := 0, int_bitlen := 0,
                num_pad := 0, suffix_pad := 0, radix := 10 }, []) := ⟨by rfl, by rfl⟩

/-- C5 (amended): mixing `h` and `l` letters in one directive fails with
the invalid-argument status: no successfully parsed descriptor ever has
both the half and the long length bits set, and the mixed directives
`"%hld"` and `"%lhd"` are both rejected with `-EINVAL`; a third repeated
`h` or `l` is instead accepted (see the counterexample). -/
theorem C5_half_long_exclusive :
    (∀ (fmt : List Char) (va : List Arg) (j : Nat) (fi : FormatInfo) (va2 : List Arg),
      yalc_pf_parse_format fmt va = .ok (j, fi, va2) →
      fi.flags &&& LFLAG_HALF = 0 ∨ fi.flags &&& LFLAG_LONG = 0) ∧
    yalc_pf_parse_format ['%', 'h', 'l', 'd'] [] = .error (-EINVAL) ∧
    yalc_pf_parse_format ['%', 'l', 'h', 'd'] [] = .error (-EINVAL) := by
  refine ⟨fun fmt va j fi va2 h => ?_, by rfl, by rfl⟩
  exact (yalc_pf_parse_go_ok (fmt.drop 1) 1 yalc_clear_fi false false false va
    (by decide) j fi va2 h).2

/-- C5 (witness): the universal part applied to the directive `"%hd"`. -/
theorem C5_witness :
    (0x201020 : Nat) &&& LFLAG_HALF = 0 ∨ (0x201020 : Nat) &&& LFLAG_LONG = 0 :=
  C5_half_long_exclusive.1 ['%', 'h', 'd'] [] 2
    { flags := 0x201020, width := 0, precision := 0, int_bitlen := 0,
      num_pad := 0, suffix_pad := 0, radix := 10 } [] (by rfl)

/-- The value the parser adds for a digit character: `cur_char - '0'`. -/
def digitVal (c : Char) : Int := ((c.toNat - '0'.toNat : Nat) : Int)

/-- The parser's accumulation of a digit run into a running value
(`v = v*10 + (c - '0')` per character). -/
def digitsAcc (a : Int) (ds : List Char) : Int :=
  ds.foldl (fun a c => a * 10 + digitVal c) a

/-- Every character of the run is a non-zero decimal digit. -/
def nzDigits (ds : List Char) : Prop :=
  ∀ c ∈ ds, c ∈ ['1', '2', '3', '4', '5', '6', '7', '8', '9']

instance (ds : List Char) : Decidable (nzDigits ds) := by
  unfold nzDigits; infer_instance

theorem digitVal_nonneg (c : Char) : 0 ≤ digitVal c := Int.natCast_nonneg _

theorem digitsAcc_mono (ds : List Char) : ∀ a : Int, 0 ≤ a → a ≤ digitsAcc a ds := by
  induction ds with
  | nil => intro a _; exact le_refl a
  | cons c ds ih =>
    intro a ha
    have hd := digitVal_nonneg c
    have h1 : a ≤ a * 10 + digitVal c := by nlinarith
    have h2 : 0 ≤ a * 10 + digitVal c := by nlinarith
    exact le_trans h1 (ih _ h2)

/-- One digit of a `w`-run: with `has_bitlen` set and no overflow past 64 the
digit is appended to `int_bitlen`. -/
theorem yalc_pf_parse_go_digit (c : Char)
    (hc : c ∈ ['1', '2', '3', '4', '5', '6', '7', '8', '9'])
    (rest : List Char) (i : Nat) (fi : FormatInfo) (wfa pfa : Bool) (va : List Arg)
    (h64 : fi.int_bitlen * 10 + digitVal c ≤ 64) :
    yalc_pf_parse_go (c :: rest) i fi wfa pfa true va =
      yalc_pf_parse_go rest (i + 1)
        { fi with int_bitlen := fi.int_bitlen * 10 + digitVal c } wfa pfa true va := by
  fin_cases hc <;>
    simp [digitVal] at h64 <;>
    (simp +decide only [yalc_pf_parse_go, reduceIte, digitVal, Char.reduceToNat,
       Nat.reduceSub, Nat.cast_ofNat, Nat.cast_one]
     rw [if_neg (by omega)])

/-- A whole run of non-zero digits with `has_bitlen` set accumulates into
`int_bitlen`, provided the final value does not exceed 64. -/
theorem yalc_pf_parse_go_digits (ds : List Char)
    (hds : nzDigits ds) : ∀ (rest : List Char) (i : Nat) (fi : FormatInfo)
    (wfa pfa : Bool) (va : List Arg), 0 ≤ fi.int_bitlen →
    digitsAcc fi.int_bitlen ds ≤ 64 →
    yalc_pf_parse_go (ds ++ rest) i fi wfa pfa true va =
      yalc_pf_parse_go rest (i + ds.length)
        { fi with int_bitlen := digitsAcc fi.int_bitlen ds } wfa pfa true va := by
  induction ds with
  | nil =>
    intro rest i fi wfa pfa va h0 h64
    simp [digitsAcc]
  | cons c ds ih =>
    intro rest i fi wfa pfa va h0 h64
    have hc : c ∈ ['1', '2', '3', '4', '5', '6', '7', '8', '9'] := hds c (by simp)
    have hacc : digitsAcc fi.int_bitlen (c :: ds) =
        digitsAcc (fi.int_bitlen * 10 + digitVal c) ds := rfl
    have hnn : 0 ≤ fi.int_bitlen * 10 + digitVal c := by
      have := digitVal_nonneg c; nlinarith
    have hstep : fi.int_bitlen * 10 + digitVal c ≤ 64 := by
      have := digitsAcc_mono ds (fi.int_bitlen * 10 + digitVal c) hnn
      rw [hacc] at h64; omega
    have hds2 : nzDigits ds := fun x hx => hds x (by simp [hx])
    rw [List.cons_append, yalc_pf_parse_go_digit c hc _ i fi wfa pfa va hstep,
        ih hds2 rest (i + 1) _ wfa pfa va hnn (by rw [← hacc]; exact h64)]
    have hlen : i + 1 + ds.length = i + (c :: ds).length := by
      simp [List.length_cons]; omega
    rw [hlen, hacc]

/-- After `w`, a digit character (which cannot be `f`) just continues the loop
with `has_bitlen` set, when no length flag is present. -/
theorem yalc_pf_parse_go_w_digit (c : Char)
    (hc : c ∈ ['1', '2', '3', '4', '5', '6', '7', '8', '9'])
    (rest : List Char) (i : Nat) (fi : FormatInfo) (wfa pfa : Bool) (va : List Arg)
    (hl : fi.flags &&& LFLAG_MASK = 0) :
    yalc_pf_parse_go ('w' :: c :: rest) i fi wfa pfa false va =
      yalc_pf_parse_go (c :: rest) (i + 1) fi wfa pfa true va := by
  fin_cases hc <;> (simp only [yalc_pf_parse_go]; rw [if_neg (by simp [hl])])

/-- The conversion letter `d` sets the signed-int type bits and breaks out of
the loop. -/
theorem yalc_pf_parse_go_d (i : Nat) (fi : FormatInfo) (wfa pfa hb : Bool) (va : List Arg) :
    yalc_pf_parse_go ['d'] i fi wfa pfa hb va =
      yalc_pf_finish_type i { fi with flags := fi.flags ||| SFLAG_IS_SIGNED ||| TFLAG_INT } va := by
  simp +decide [yalc_pf_parse_go]

/-- C4 (counterexample): value `0.0` under `%a` with no explicit width or
precision renders `0x0.0000000000000p+0` — the a-form branch applies the
default hexadecimal precision 13 and the alternate-point logic — and not the
claimed `0x0p+0`. -/
theorem C4_counterexample_aform :
    (yalc_pf_parse_format ['%', 'a'] []).map (fun r => yalc_putd_chars 0 r.2.1) =
      .ok (['0', 'x', '0', '.'] ++ List.replicate 13 '0' ++ ['p', '+', '0']) ∧
    (['0', 'x', '0', '.'] ++ List.replicate 13 '0' ++ ['p', '+', '0'] : List Char) ≠
      ['0', 'x', '0', 'p', '+', '0'] := ⟨by rfl, by decide⟩

/-- C4 (amended): value `0.0` with no explicit width or precision renders
`0.000000` for `%f`, `0.000000e+00` for `%e`, `0` for `%g`, and
`0x0.0000000000000p+0` (not `0x0p+0`) for `%a`. -/
theorem C4_zero_default_rendering :
    (yalc_pf_parse_format ['%', 'f'] []).map (fun r => yalc_putd_chars 0 r.2.1) =
      .ok ['0', '.', '0', '0', '0', '0', '0', '0'] ∧
    (yalc_pf_parse_format ['%', 'e'] []).map (fun r => yalc_putd_chars 0 r.2.1) =
      .ok ['0', '.', '0', '0', '0', '0', '0', '0', 'e', '+', '0', '0'] ∧
    (yalc_pf_parse_format ['%', 'g'] []).map (fun r => yalc_putd_chars 0 r.2.1) =
      .ok ['0'] ∧
    (yalc_pf_parse_format ['%', 'a'] []).map (fun r => yalc_putd_chars 0 r.2.1) =
      .ok (['0', 'x', '0', '.'] ++ List.replicate 13 '0' ++ ['p', '+', '0']) :=
  ⟨by rfl, by rfl, by rfl, by rfl⟩

theorem yalc_putll_pfx_zero (fi : FormatInfo) : (yalc_putll_pfx 0 fi).1 = 0 := by
  unfold yalc_putll_pfx
  split_ifs <;> simp_all

theorem yalc_putll_octalt_id (digits : List Char) (val : Nat) (fi : FormatInfo)
    (h : ¬ (fi.radix = 8 ∧ fi.flags &&& FFLAG_ALT ≠ 0)) :
    yalc_putll_octalt digits val fi = fi := by
  unfold yalc_putll_octalt
  rw [if_neg h]

/-- C7 (amended, general part packaged with the `%.*i` instance below):
precision handling of the integer renderer. -/
theorem C7_general (val : Nat) (fi : FormatInfo)
    (hprec : fi.flags &&& SFLAG_HAS_PREC ≠ 0)
    (hoct : ¬ (fi.radix = 8 ∧ fi.flags &&& FFLAG_ALT ≠ 0))
    (hP : 0 ≤ fi.precision) (hPm : fi.precision ≤ INT_MAX) (hnp : fi.num_pad = 0) :
    (fi.precision > ((yalc_putll_core val fi).1.inbuff.length : Int) →
      ((yalc_putll_core val fi).1.inbuff.length : Int) +
        -(yalc_putll_core val fi).2.num_pad = fi.precision) ∧
    (fi.precision = 0 ∧ val = 0 →
      (yalc_putll_core val fi).1.inbuff = [] ∧ (yalc_putll_core val fi).2.num_pad = 0) := by
  have hem : fi.precision.emod (2 ^ 64) = fi.precision :=
    Int.emod_eq_of_lt hP (by unfold INT_MAX at hPm; omega)
  have hcs : (cSizeT fi.precision : Int) = fi.precision := by
    unfold cSizeT
    rw [hem]
    exact Int.toNat_of_nonneg hP
  have hTRa : TRFLAG_REVERSE_NUM &&& FFLAG_ALT = 0 := by decide
  have hTRp : TRFLAG_REVERSE_NUM &&& SFLAG_HAS_PREC = 0 := by decide
  simp only [yalc_putll_core]
  rw [show (yalc_itora (yalc_putll_pfx val fi).1 fi).2 =
      { fi with flags := fi.flags ||| TRFLAG_REVERSE_NUM } from rfl]
  rw [yalc_putll_octalt_id _ _ _ (by
    intro hcon
    refine hoct ⟨hcon.1, ?_⟩
    have h2 := hcon.2
    rw [show ({ fi with flags := fi.flags ||| TRFLAG_REVERSE_NUM } : FormatInfo).flags =
        fi.flags ||| TRFLAG_REVERSE_NUM from rfl, land_lor, hTRa] at h2
    simpa using h2)]
  unfold yalc_putll_prec
  rw [if_pos (show ({ fi with flags := fi.flags ||| TRFLAG_REVERSE_NUM } : FormatInfo).flags &&&
        SFLAG_HAS_PREC ≠ 0 from by
      rw [show ({ fi with flags := fi.flags ||| TRFLAG_REVERSE_NUM } : FormatInfo).flags =
          fi.flags ||| TRFLAG_REVERSE_NUM from rfl, land_lor, hTRp]
      simpa using hprec)]
  set digits := (yalc_itora (yalc_putll_pfx val fi).1 fi).1 with hdig
  by_cases hgt : cSizeT fi.precision > digits.length
  · rw [if_pos hgt]
    constructor
    · intro _
      have hsub : ((cSizeT fi.precision - digits.length : Nat) : Int) =
          (cSizeT fi.precision : Int) - (digits.length : Int) :=
        Nat.cast_sub (Nat.le_of_lt hgt)
      simp only [List.take_length, neg_neg, hsub]
      omega
    · rintro ⟨hP0, -⟩
      rw [hP0] at hgt
      rw [show cSizeT 0 = 0 from rfl] at hgt
      omega
  · rw [if_neg hgt]
    by_cases hz : ({ fi with flags := fi.flags ||| TRFLAG_REVERSE_NUM } : FormatInfo).precision =
        0 ∧ (yalc_putll_pfx val fi).1 = 0
    · rw [if_pos hz]
      constructor
      · intro hc
        have : fi.precision = 0 := hz.1
        simp only [List.take_zero, List.length_nil] at hc
        omega
      · intro _
        exact ⟨by simp, hnp⟩
    · rw [if_neg hz]
      constructor
      · intro hc
        simp only [List.take_length] at hc
        omega
      · rintro ⟨hP0, hv0⟩
        subst hv0
        exact absurd ⟨hP0, yalc_putll_pfx_zero fi⟩ hz


set_option maxRecDepth 10000 in
/-- C7 (amended): for every integer conversion with an explicit precision `P`
(`0 ≤ P ≤ INT_MAX`) that is not an alternate-form octal conversion: if `P`
exceeds the kept digit count the renderer schedules zero padding so that
digits plus pad come to exactly `P`, and `P = 0` with value `0` keeps no
digits and no pad; moreover `%.*i` with precision argument 324 and value 0
emits exactly 324 zero digits.  (For `%#o` the claim fails: the alternate
form bumps a zero precision, see the counterexample.) -/
theorem C7_precision_padding :
    (∀ (val : Nat) (fi : FormatInfo),
      fi.flags &&& SFLAG_HAS_PREC ≠ 0 →
      ¬ (fi.radix = 8 ∧ fi.flags &&& FFLAG_ALT ≠ 0) →
      0 ≤ fi.precision → fi.precision ≤ INT_MAX → fi.num_pad = 0 →
      (fi.precision > ((yalc_putll_core val fi).1.inbuff.length : Int) →
        ((yalc_putll_core val fi).1.inbuff.length : Int) +
          -(yalc_putll_core val fi).2.num_pad = fi.precision) ∧
      (fi.precision = 0 ∧ val = 0 →
        (yalc_putll_core val fi).1.inbuff = [] ∧ (yalc_putll_core val fi).2.num_pad = 0)) ∧
    (yalc_pf_parse_format ['%', '.', '*', 'i'] [Arg.int 324]).map
        (fun r => yalc_putll_chars 0 r.2.1) = .ok (List.replicate 324 '0') :=
  ⟨fun val fi h1 h2 h3 h4 h5 => C7_general val fi h1 h2 h3 h4 h5, by rfl⟩

/-- C7 (counterexample): `%#.0o` with value 0 — explicit precision 0 and a
zero value — emits the single digit `0`, not an empty digit string: the
alternate-form octal logic bumps the zero precision to 1. -/
theorem C7_counterexample_octal_alt :
    (yalc_pf_parse_format ['%', '#', '.', '0', 'o'] []).map
        (fun r => yalc_putll_chars 0 r.2.1) = .ok ['0'] ∧
    (['0'] : List Char) ≠ [] := ⟨by rfl, by decide⟩

/-- A sample descriptor for the C7 witness: explicit precision 5, radix 10. -/
def C7fiW : FormatInfo :=
  { flags := 0x80000, width := 0, precision := 5, int_bitlen := 0,
    num_pad := 0, suffix_pad := 0, radix := 10 }

/-- C7 (witness): the amended theorem applied at value 0 and precision 5. -/
theorem C7_witness :
    ((yalc_putll_core 0 C7fiW).1.inbuff.length : Int) +
      -(yalc_putll_core 0 C7fiW).2.num_pad = 5 :=
  (C7_precision_padding.1 0 C7fiW (by decide) (by decide) (by decide) (by decide)
    (by decide)).1 (by decide)

/-- C10: the sink never stores past the capacity.  For a bounded sink of
capacity `N > 0`, one `yalc_pf_char_out` step changes at most the byte at
index `chars_out`, and it does so only as the data byte while
`chars_out < N - 1` or as the terminating zero byte at `chars_out = N - 1`;
every index at or beyond `N` is left untouched no matter how large
`chars_out` has grown. -/
theorem C10_char_out_bounded (c : Char) (out : OutputInfo) (buf : Nat → Char)
    (hbuf : out.outbuff = some buf) (hN : 0 < out.outbuff_len) :
    ∃ buf2, (yalc_pf_char_out c out).outbuff = some buf2 ∧
      (∀ j, out.outbuff_len ≤ j → buf2 j = buf j) ∧
      (∀ j, j ≠ out.chars_out → buf2 j = buf j) ∧
      (buf2 out.chars_out ≠ buf out.chars_out →
        (out.chars_out < out.outbuff_len - 1 ∧ buf2 out.chars_out = c) ∨
        (out.chars_out = out.outbuff_len - 1 ∧ buf2 out.chars_out = nulChar)) := by
  unfold yalc_pf_char_out
  rw [hbuf]
  simp only []
  rw [if_pos hN]
  by_cases h1 : out.chars_out < out.outbuff_len - 1
  · rw [if_pos h1]
    refine ⟨bufWrite buf out.chars_out c, rfl, ?_, ?_, ?_⟩
    · intro j hj
      unfold bufWrite
      rw [if_neg (by omega)]
    · intro j hj
      unfold bufWrite
      rw [if_neg hj]
    · intro _
      exact Or.inl ⟨h1, by unfold bufWrite; rw [if_pos rfl]⟩
  · rw [if_neg h1]
    by_cases h2 : out.chars_out = out.outbuff_len - 1
    · rw [if_pos h2]
      refine ⟨bufWrite buf out.chars_out nulChar, rfl, ?_, ?_, ?_⟩
      · intro j hj
        unfold bufWrite
        rw [if_neg (by omega)]
      · intro j hj
        unfold bufWrite
        rw [if_neg hj]
      · intro _
        exact Or.inr ⟨h2, by unfold bufWrite; rw [if_pos rfl]⟩
    · rw [if_neg h2]
      exact ⟨buf, rfl, fun j _ => rfl, fun j _ => rfl, fun h => absurd rfl h⟩

/-- C10 (witness): the theorem applied to a concrete 3-byte sink. -/
theorem C10_witness :
    ∃ buf2, (yalc_pf_char_out 'x'
        { outbuff := some (fun _ => 'A'), outbuff_len := 3, chars_out := 0 }).outbuff =
        some buf2 ∧
      (∀ j, (3 : Nat) ≤ j → buf2 j = (fun _ => 'A') j) ∧
      (∀ j, j ≠ (0 : Nat) → buf2 j = (fun _ => 'A') j) ∧
      (buf2 0 ≠ (fun _ => 'A') 0 →
        ((0 : Nat) < 3 - 1 ∧ buf2 0 = 'x') ∨ ((0 : Nat) = 3 - 1 ∧ buf2 0 = nulChar)) :=
  C10_char_out_bounded 'x'
    { outbuff := some (fun _ => 'A'), outbuff_len := 3, chars_out := 0 }
    (fun _ => 'A') rfl (by decide)

theorem cSizeT_int_eq (x : Int) (h0 : 0 ≤ x) (hlt : x < 2 ^ 64) : (cSizeT x : Int) = x := by
  have hm : x.emod (2 ^ 64) = x := Int.emod_eq_of_lt h0 hlt
  unfold cSizeT
  rw [hm]
  exact Int.toNat_of_nonneg h0

theorem wpad_mono (a b fw : Nat) (h : a ≤ b) :
    (if a > fw then a - fw else 0) ≤ (if b > fw then b - fw else 0) := by
  split_ifs <;> omega

/-- C9: field-width monotonicity.  For a fixed field and descriptor and
widths `0 ≤ W1 ≤ W2` (in `int` range), the two emitted sequences share the
same prefix/digits/suffix content and differ only in a single run of
padding characters (spaces or zeros) whose length grows with the width:
increasing the width never removes or truncates content. -/
theorem C9_width_monotone (fld : FieldData) (fi : FormatInfo) (W1 W2 : Int)
    (h1 : 0 ≤ W1) (h12 : W1 ≤ W2) (h2 : W2 < 2 ^ 64) :
    ∃ (pre post : List Char) (pc : Char) (k1 k2 : Nat), k1 ≤ k2 ∧ (pc = ' ' ∨ pc = '0') ∧
      yalc_pf_field_chars fld { fi with width := W1 } =
        pre ++ List.replicate k1 pc ++ post ∧
      yalc_pf_field_chars fld { fi with width := W2 } =
        pre ++ List.replicate k2 pc ++ post := by
  have e1 : (cSizeT W1 : Int) = W1 := cSizeT_int_eq W1 h1 (by omega)
  have e2 : (cSizeT W2 : Int) = W2 := cSizeT_int_eq W2 (h1.trans h12) h2
  have hmono : cSizeT W1 ≤ cSizeT W2 := by omega
  unfold yalc_pf_field_chars
  simp only []
  set prebuf_pad := (if fi.num_pad < 0 then (-fi.num_pad).toNat else 0) with hA
  set postbuf_pad := (if 0 < fi.num_pad then fi.num_pad.toNat else 0) with hB
  set suffix_padN := cSizeT fi.suffix_pad with hC
  set prefixE := yalc_pf_chars_list fld.prefixBuf (fi.flags &&& TRFLAG_REVERSE_PREFIX ≠ 0)
    with hD
  set numE := yalc_pf_chars_list fld.inbuff (fi.flags &&& TRFLAG_REVERSE_NUM ≠ 0) with hE
  set suffixE := yalc_pf_chars_list fld.suffixBuf (fi.flags &&& TRFLAG_REVERSE_SUFFIX ≠ 0)
    with hF
  set FW := fld.prefixBuf.length + prebuf_pad + fld.inbuff.length + postbuf_pad +
    fld.suffixBuf.length + suffix_padN + (if fld.sign_char ≠ nulChar then 1 else 0) with hG
  set wp1 := (if cSizeT W1 > FW then cSizeT W1 - FW else 0) with hw1
  set wp2 := (if cSizeT W2 > FW then cSizeT W2 - FW else 0) with hw2
  have hk : wp1 ≤ wp2 := wpad_mono _ _ _ hmono
  by_cases hp0 : (fi.flags >>> 1) &&& 3 = 0
  · rw [if_pos hp0, if_pos hp0]
    exact ⟨[], prefixE ++ List.replicate prebuf_pad '0' ++ numE ++
        List.replicate postbuf_pad '0' ++ suffixE ++ List.replicate suffix_padN '0',
      ' ', wp1, wp2, hk, Or.inl rfl, by simp [List.append_assoc], by simp [List.append_assoc]⟩
  · rw [if_neg hp0, if_neg hp0]
    by_cases hp1 : (fi.flags >>> 1) &&& 3 = 1
    · rw [if_pos hp1, if_pos hp1]
      by_cases hd : fi.flags &&& TFLAG_DOUBLE ≠ 0
      · rw [if_pos hd, if_pos hd]
        exact ⟨(if fld.sign_char ≠ nulChar then [fld.sign_char] else []),
          prefixE ++ (numE ++ List.replicate postbuf_pad '0' ++ suffixE ++
            List.replicate suffix_padN '0'),
          '0', wp1, wp2, hk, Or.inr rfl, by simp [List.append_assoc],
          by simp [List.append_assoc]⟩
      · rw [if_neg hd, if_neg hd]
        exact ⟨prefixE,
          numE ++ List.replicate postbuf_pad '0' ++ suffixE ++ List.replicate suffix_padN '0',
          '0', wp1, wp2, hk, Or.inr rfl, by simp [List.append_assoc],
          by simp [List.append_assoc]⟩
    · rw [if_neg hp1, if_neg hp1]
      exact ⟨prefixE ++ List.replicate prebuf_pad '0' ++ numE ++
          List.replicate postbuf_pad '0' ++ suffixE ++ List.replicate suffix_padN '0',
        [], ' ', wp1, wp2, hk, Or.inl rfl, by simp [List.append_assoc],
        by simp [List.append_assoc]⟩


/-- A sample field for the C9 witness. -/
def C9fldW : FieldData :=
  { inbuff := ['1'], prefixBuf := [], suffixBuf := [], sign_char := nulChar }

/-- A sample descriptor for the C9 witness. -/
def C9fiW : FormatInfo :=
  { flags := 0, width := 0, precision := 0, int_bitlen := 0, num_pad := 0,
    suffix_pad := 0, radix := 10 }

/-- C9 (witness): the monotonicity theorem applied at widths 3 and 7. -/
theorem C9_witness :
    ∃ (pre post : List Char) (pc : Char) (k1 k2 : Nat), k1 ≤ k2 ∧ (pc = ' ' ∨ pc = '0') ∧
      yalc_pf_field_chars C9fldW { C9fiW with width := 3 } =
        pre ++ List.replicate k1 pc ++ post ∧
      yalc_pf_field_chars C9fldW { C9fiW with width := 7 } =
        pre ++ List.replicate k2 pc ++ post :=
  C9_width_monotone C9fldW C9fiW 3 7 (by decide) (by decide) (by decide)

theorem yalc_pf_parse_post_error_neg {i : Nat} {fi : FormatInfo} {va : List Arg} {e : Int}
    (h : yalc_pf_parse_post i fi va = .error e) : e < 0 := by
  unfold yalc_pf_parse_post at h
  by_cases h1 : (fi.flags &&& TFLAG_MASK) &&& ((fi.flags &&& TFLAG_MASK) - 1) ≠ 0
  · rw [if_pos h1] at h
    cases h
    decide
  · rw [if_neg h1] at h
    by_cases h2 : fi.flags &&& LFLAG_HALF ≠ 0 ∧ fi.flags &&& LFLAG_LONG ≠ 0
    · rw [if_pos h2] at h
      cases h
      decide
    · rw [if_neg h2] at h
      exact Except.noConfusion h

theorem yalc_pf_finish_type_error_neg {i : Nat} {fi : FormatInfo} {va : List Arg} {e : Int}
    (h : yalc_pf_finish_type i fi va = .error e) : e < 0 := by
  unfold yalc_pf_finish_type at h
  by_cases h1 : fi.flags &&& TFLAG_MASK = 0
  · rw [if_pos h1] at h
    cases h
    decide
  · rw [if_neg h1] at h
    exact yalc_pf_parse_post_error_neg h

set_option maxHeartbeats 2000000 in
/-- Every status the parser loop fails with is negative. -/
theorem yalc_pf_parse_go_error_neg (cs : List Char) (i : Nat) (fi : FormatInfo)
    (wfa pfa hb : Bool) (va : List Arg) :
    ∀ e, yalc_pf_parse_go cs i fi wfa pfa hb va = .error e → e < 0 := by
  induction cs, i, fi, wfa, pfa, hb, va using yalc_pf_parse_go.induct
  all_goals intro e h
  all_goals try simp only [Bool.not_eq_true] at *
  all_goals try subst_vars
  all_goals try simp only [yalc_pf_parse_go, reduceIte, ne_eq, and_true, true_and, and_self,
    not_false_eq_true, not_true_eq_false, *] at h
  all_goals try (cases h; decide)
  all_goals try exact yalc_pf_parse_post_error_neg h
  all_goals try exact yalc_pf_finish_type_error_neg h
  all_goals try (rename_i ih; exact ih e h)
  all_goals (rename_i ih; rcases ‹_ ∧ _› with ⟨-, hpfa⟩; subst hpfa; exact ih e h)

theorem yalc_pf_parse_format_error_neg {fmt : List Char} {va : List Arg} {e : Int}
    (h : yalc_pf_parse_format fmt va = .error e) : e < 0 :=
  yalc_pf_parse_go_error_neg (fmt.drop 1) 1 yalc_clear_fi false false false va e h

/-- Literal text before a directive just streams through the sink. -/
theorem yalc_xprintf_go_pre (pre : List Char) (hpre : '%' ∉ pre) :
    ∀ (fuel : Nat) (rest : List Char) (out : OutputInfo) (va : List Arg),
    yalc_xprintf_go (fuel + pre.length) (pre ++ rest) out va =
      yalc_xprintf_go fuel rest (yalc_pf_run pre out) va := by
  induction pre with
  | nil =>
    intro fuel rest out va
    simp [yalc_pf_run]
  | cons c p ih =>
    intro fuel rest out va
    have hc : ¬ c = '%' := by
      intro hcc
      exact hpre (by simp [hcc])
    have hp : '%' ∉ p := fun hm => hpre (List.mem_cons_of_mem c hm)
    rw [show fuel + (c :: p).length = (fuel + p.length) + 1 from by
      simp [List.length_cons]; omega]
    rw [show ((c :: p) ++ rest : List Char) = c :: (p ++ rest) from rfl]
    rw [show yalc_xprintf_go ((fuel + p.length) + 1) (c :: (p ++ rest)) out va =
        yalc_xprintf_go (fuel + p.length) (p ++ rest) (yalc_pf_char_out c out) va from by
      simp only [yalc_xprintf_go]
      rw [if_pos hc]]
    rw [ih hp fuel rest (yalc_pf_char_out c out) va]
    rfl

/-- A failing directive makes the loop return the error with the sink state
as it was when the directive was reached. -/
theorem yalc_xprintf_go_err (fuel : Nat) (c2 : Char) (tail : List Char) (out : OutputInfo)
    (va : List Arg) (e : Int) (hc2 : c2 ≠ '%')
    (herr : yalc_pf_parse_format ('%' :: c2 :: tail) va = .error e) :
    yalc_xprintf_go (fuel + 1) ('%' :: c2 :: tail) out va = (out, e) := by
  simp only [yalc_xprintf_go]
  rw [if_neg (by simp)]
  rw [if_neg hc2]
  rw [herr]

/-- C2 (bug exhibit): the bounded write `vsnprintf(buf, 16, "hi")` — output
strictly shorter than the capacity — returns the unbounded count 2 but
stores no terminating zero byte anywhere in the 16-byte buffer: the sink
only writes `'\0'` when `chars_out` reaches `outbuff_len - 1`, which never
happens when the output fits. -/
theorem C2_missing_terminator :
    (vsnprintf (fun _ => 'A') 16 ['h', 'i'] []).2 = 2 ∧
    (vsnprintf (fun _ => 'A') 16 ['h', 'i'] []).2 = vprintf ['h', 'i'] [] ∧
    (vsnprintf (fun _ => 'A') 16 ['h', 'i'] []).1 0 = 'h' ∧
    (vsnprintf (fun _ => 'A') 16 ['h', 'i'] []).1 1 = 'i' ∧
    (∀ j : Fin 16, (vsnprintf (fun _ => 'A') 16 ['h', 'i'] []).1 j ≠ nulChar) :=
  ⟨by rfl, by rfl, by rfl, by rfl, by decide⟩

/-- C1 (bug exhibit): for biased exponent 1077 (the value `2^54`), the
conversion core computes `q = max(0, Log10ofPow2(2) - 1)` in `uint32_t`;
`Log10ofPow2(2) = 0`, so `q` wraps to `0xFFFFFFFF`, `exponent10` becomes
`-1`, and the inverse-power-of-five tables are indexed out of bounds.  The
embedding (out-of-range table reads defaulting) yields `(-1, 1)`, whose
value `1 × 10⁻¹` is not `2^54`; the spec's documented boundary bit pattern
`0x4830F0CF064DD592` (biased exponent 1155, significand 264771954660754)
lies outside the wrap range and does produce its documented shortest digits
`5764607523034235 × 10^24`. -/
theorem C1_q_underflow_bug :
    yalc_double_to_decimal 1077 0 = (-1, 1) ∧
    (1 : ℚ) * 10 ^ (-1 : ℤ) ≠ 2 ^ (54 : ℕ) ∧
    yalc_double_to_decimal 1155 264771954660754 = (24, 5764607523034235) :=
  ⟨by rfl, by norm_num, by rfl⟩

end Yalc
